import Mathlib

/-!
Verification development for the fomod installer core
(src/Mopy/bash/boop.py).  The Python module is shallowly embedded:
Python dicts become association lists with unique keys, XML elements
become inductive data, the generator-based installer becomes an explicit
state machine, and raised exceptions become an error type threaded through
an Except monad.
-/

namespace Boop

/-! ### Association-list dictionaries

Python dict operations used by the module.  Keys are strings; a dict is
modelled as an association list whose well-formed states have no
duplicate keys. -/

abbrev Dict (β : Type) := List (String × β)

instance {ε α : Type} [DecidableEq ε] [DecidableEq α] : DecidableEq (Except ε α) := fun a b =>
  match a, b with
  | .ok x, .ok y => decidable_of_iff (x = y) (by simp)
  | .error x, .error y => decidable_of_iff (x = y) (by simp)
  | .ok _, .error _ => .isFalse (by simp)
  | .error _, .ok _ => .isFalse (by simp)

/-- Lookup, returning the value of the first matching key. -/
def dget {β : Type} (d : Dict β) (k : String) : Option β :=
  match d with
  | [] => none
  | (k', v) :: rest => if k' == k then some v else dget rest k

/-- Update in place (replacing the first occurrence) or append a new key. -/
def dset {β : Type} (d : Dict β) (k : String) (v : β) : Dict β :=
  match d with
  | [] => [(k, v)]
  | (k', v') :: rest => if k' == k then (k, v) :: rest else (k', v') :: dset rest k v

/-- Remove every binding of key `k` (a well-formed dict has at most one). -/
def dremove {β : Type} (d : Dict β) (k : String) : Dict β :=
  d.filter (fun kv => !(kv.1 == k))

/-- The keys of a dict, in order. -/
def dkeys {β : Type} (d : Dict β) : List String := d.map (·.1)

/-! ### LooseVersion (distutils.version)

`LooseVersion` tokenizes a version string into numeric runs, lowercase
runs and the residual runs between them ('.' is dropped), then compares
the token lists with Python 2 list comparison where every number sorts
below every string. -/

inductive VComp : Type
  | num (n : Nat)
  | str (s : List Char)
deriving DecidableEq, Repr

/-- Character classes distinguished by the LooseVersion tokenizer. -/
inductive VClass : Type
  | digit
  | lower
  | dot
  | other
deriving DecidableEq, Repr

def vclassOf (c : Char) : VClass :=
  if c.isDigit then .digit
  else if 'a' ≤ c && c ≤ 'z' then .lower
  else if c == '.' then .dot
  else .other

/-- Tokenizer state: components emitted so far (reversed) and the class of
the run currently open, if any. -/
structure VState : Type where
  comps : List VComp
  openClass : Option VClass
deriving Repr

def vstep (st : VState) (c : Char) : VState :=
  match vclassOf c with
  | .dot => { st with openClass := none }
  | .digit =>
    match st.openClass, st.comps with
    | some .digit, .num n :: rest =>
        { comps := .num (n * 10 + (c.toNat - 48)) :: rest, openClass := some .digit }
    | _, comps => { comps := .num (c.toNat - 48) :: comps, openClass := some .digit }
  | .lower =>
    match st.openClass, st.comps with
    | some .lower, .str s :: rest =>
        { comps := .str (s ++ [c]) :: rest, openClass := some .lower }
    | _, comps => { comps := .str [c] :: comps, openClass := some .lower }
  | .other =>
    match st.openClass, st.comps with
    | some .other, .str s :: rest =>
        { comps := .str (s ++ [c]) :: rest, openClass := some .other }
    | _, comps => { comps := .str [c] :: comps, openClass := some .other }

/-- Parse a version string into its LooseVersion component list. -/
def parseLoose (s : String) : List VComp :=
  (s.toList.foldl vstep { comps := [], openClass := none }).comps.reverse

/-- Lexicographic comparison of character lists (Python 2 byte-string
comparison restricted to the code points at hand). -/
def cmpChars : List Char → List Char → Ordering
  | [], [] => .eq
  | [], _ :: _ => .lt
  | _ :: _, [] => .gt
  | a :: as, b :: bs =>
    if a < b then .lt else if b < a then .gt else cmpChars as bs

/-- Python 2 comparison of mixed int/str components: numbers sort below
strings. -/
def cmpVComp : VComp → VComp → Ordering
  | .num a, .num b => compare a b
  | .str a, .str b => cmpChars a b
  | .num _, .str _ => .lt
  | .str _, .num _ => .gt

/-- Python 2 list comparison: elementwise, then by length. -/
def cmpVList : List VComp → List VComp → Ordering
  | [], [] => .eq
  | [], _ :: _ => .lt
  | _ :: _, [] => .gt
  | a :: as, b :: bs =>
    match cmpVComp a b with
    | .eq => cmpVList as bs
    | o => o

/-- The test `LooseVersion(a) < LooseVersion(b)` from the source. -/
def looseLt (a b : String) : Bool :=
  cmpVList (parseLoose a) (parseLoose b) == .lt

/-! ### Dependency evaluation (`_assert_dependencies`)

A dependency element holds an optional `operator` attribute and a list of
child checks.  Evaluation raises `MissingDependency` (here
`PyError.missingDependency`) per the And/Or rules of the source; the other
`PyError` constructors stand for the untyped Python exceptions the code
can raise on degenerate inputs. -/

/-- Payload of a raised MissingDependency: the `(type_, expected, actual)`
triple passed to its constructor. -/
structure FailureInfo : Type where
  ftype : String
  expected : String
  actual : String
deriving DecidableEq, Repr

inductive PyError : Type
  /-- A MissingDependency exception carrying its payload. -/
  | missingDependency (fi : FailureInfo)
  /-- A ValueError (validation failures, and the MissingDependency
  constructor's rejection of an unexpected dependency type). -/
  | valueError (msg : String)
  /-- TypeError (e.g. unpacking an empty tuple into a 3-argument call). -/
  | typeError
  /-- UnboundLocalError: a local name read before any assignment. -/
  | unboundLocalError
  /-- StopIteration escaping from `next` on an exhausted generator. -/
  | stopIteration
  /-- KeyError from an absent dict key. -/
  | keyError
deriving DecidableEq, Repr

/-- Constructing and raising `MissingDependency(type_, expected, actual)`:
the constructor itself raises ValueError on an unexpected type tag. -/
def raiseMissing (fi : FailureInfo) : PyError :=
  if fi.ftype == "Version" || fi.ftype == "File" || fi.ftype == "Flag" then
    .missingDependency fi
  else
    .valueError "Unexpected dependency type."

/-- The facts a dependency tree is evaluated against: the flag view
(`flag_states.get(name, '')`), an optional destination root (`None`
disables file checks) abstracted to an existence oracle, and an optional
game version. -/
structure Facts : Type where
  flags : String → String
  dest : Option (String → Bool)
  gameVersion : Option String

/-- A child element of a `dependencies` tag, by XML tag name. -/
inductive Check : Type
  | gameDependency (version : String)
  | fileDependency (file : String) (state : String)
  | flagDependency (flag : String) (value : String)
  | dependencies (operator : Option String) (children : List Check)
  | otherTag (tag : String)
deriving Repr

/-- A `dependencies` element: the optional `operator` attribute (default
"And") and the child checks in document order. -/
structure DepRoot : Type where
  operator : Option String
  checks : List Check
deriving Repr

mutual

/-- The per-iteration `missed_dep` value computed for one check of the
loop body of `_assert_dependencies`; `none` models the empty tuple.
A nested `dependencies` child recurses and lets any exception
propagate. -/
def checkMissed (facts : Facts) : Check → Except PyError (Option FailureInfo)
  | .gameDependency version =>
    match facts.gameVersion with
    | none => .ok none
    | some gv =>
      if looseLt gv version then .ok (some ⟨"Version", version, gv⟩) else .ok none
  | .fileDependency file state =>
    match facts.dest with
    | none => .ok none
    | some exists? =>
      let fileState := exists? file
      if state == "Missing" && fileState then
        .ok (some ⟨"File", "missing", file⟩)
      else if (state == "Active" || state == "Inactive") && !fileState then
        .ok (some ⟨"File", state.toLower, file⟩)
      else .ok none
  | .flagDependency flag value =>
    if value == facts.flags flag then .ok none
    else .ok (some ⟨"Flag", value, facts.flags flag⟩)
  | .dependencies operator children =>
    match evalDeps facts (operator.getD "And") children.length children 0 none with
    | .ok _ => .ok none
    | .error e => .error e
  | .otherTag _ => .ok none
termination_by c => sizeOf c
decreasing_by all_goals simp_wf

/-- The check loop of `_assert_dependencies`: `num` is `missed_dep_num`,
`total` is `len(checks)`, and `last` tracks the binding of the loop-local
`missed_dep` (`none` = still unbound, `some none` = bound to the empty
tuple, `some (some fi)` = bound to a real triple). -/
def evalDeps (facts : Facts) (operator : String) (total : Nat) :
    List Check → Nat → Option (Option FailureInfo) → Except PyError Unit
  | [], num, last =>
    if operator == "Or" && num == total then
      match last with
      | none => .error .unboundLocalError
      | some none => .error .typeError
      | some (some fi) => .error (raiseMissing fi)
    else .ok ()
  | c :: rest, num, _last =>
    match checkMissed facts c with
    | .error e => .error e
    | .ok none => evalDeps facts operator total rest num (some none)
    | .ok (some fi) =>
      if operator == "And" then .error (raiseMissing fi)
      else evalDeps facts operator total rest (num + 1) (some (some fi))
termination_by cs _ _ => sizeOf cs
decreasing_by all_goals (simp_wf <;> omega)

end

/-- `_assert_dependencies(depend, ...)`: `None` is trivially satisfied. -/
def assertDependencies (facts : Facts) : Option DepRoot → Except PyError Unit
  | none => .ok ()
  | some root => evalDeps facts (root.operator.getD "And") root.checks.length root.checks 0 none

/-! ### ChainMap and _NestedChainMap flattening

A flag layer is a flat name→value dict; a file layer is a two-level dict
priority→(source→destination), exactly as built by `_collect_files`. -/

abbrev FlagLayer := Dict String
abbrev FileLayer := Dict (Dict String)

/-- `ChainMap.__getitem__`: scan the maps front to back. -/
def chainGet {β : Type} (maps : List (Dict β)) (k : String) : Option β :=
  match maps with
  | [] => none
  | m :: ms =>
    match dget m k with
    | some v => some v
    | none => chainGet ms k

/-- `ChainMap.__iter__` / `keys()`: a dict is built by updating from the
reversed map list, so keys appear in first-insertion order starting from
the rearmost map. -/
def chainKeys {β : Type} (maps : List (Dict β)) : List String :=
  maps.reverse.foldl
    (fun acc m => m.foldl (fun a kv => if a.contains kv.1 then a else a ++ [kv.1]) acc) []

/-- `dict(chain_map)`: every key of the chain, each valued by the
frontmost map that defines it. -/
def chainFlatten {β : Type} (maps : List (Dict β)) : Dict β :=
  (chainKeys maps).filterMap (fun k => (chainGet maps k).map (fun v => (k, v)))

/-- `_NestedChainMap.__getitem__`: collect the values for `k` from every
map front to back and merge them in reverse, so the frontmost map wins per
inner key.  (In this module the nested values are always dicts, so only
the dict-merging branch of the source is reachable.) -/
def nestedGet (maps : List FileLayer) (k : String) : Option (Dict String) :=
  match maps.filterMap (fun m => dget m k) with
  | [] => none
  | v :: vs =>
    some (((v :: vs).reverse).foldl (fun acc inner => inner.foldl (fun a kv => dset a kv.1 kv.2) acc) [])

/-- `dict(nested_chain_map)`: every priority key, nested-merged. -/
def nestedFlatten (maps : List FileLayer) : FileLayer :=
  (chainKeys maps).filterMap (fun k => (nestedGet maps k).map (fun v => (k, v)))

/-! ### File and flag collection -/

/-- A child item of a `files` element: `source`, optional `destination`
(default "") and optional `priority` (default "0") attributes. -/
structure FileItem : Type where
  source : String
  destination : Option String
  prioAttr : Option String
deriving Repr

/-- `_collect_files`: build this step's two-level dict and insert it at
the front of the chain (an empty dict even when `file_list` is None). -/
def collectFiles (fileList : Option (List FileItem)) (maps : List FileLayer) : List FileLayer :=
  let fileDict : FileLayer :=
    match fileList with
    | none => []
    | some items =>
      items.foldl
        (fun fd item =>
          let dest := item.destination.getD ""
          let pr := item.prioAttr.getD "0"
          let prDict := (dget fd pr).getD []
          dset fd pr (dset prDict item.source dest))
        []
  fileDict :: maps

/-- A child of a `conditionFlags` element: the `name` attribute and the
element text (`flag.text or ''`). -/
structure FlagItem : Type where
  name : String
  text : Option String
deriving Repr

/-- `_collect_flags`. -/
def collectFlags (flagList : Option (List FlagItem)) (maps : List FlagLayer) : List FlagLayer :=
  (match flagList with
   | none => []
   | some flags => flags.foldl (fun fd f => dset fd f.name (f.text.getD "")) []) :: maps

/-! ### Sorting (Python `sorted` is stable; `reverse=True` keeps equal
elements in original order) -/

def insertSortedBy {α : Type} (le : α → α → Bool) (x : α) : List α → List α
  | [] => [x]
  | y :: ys => if le x y then x :: y :: ys else y :: insertSortedBy le x ys

def stableSortBy {α : Type} (le : α → α → Bool) : List α → List α
  | [] => []
  | x :: xs => insertSortedBy le x (stableSortBy le xs)

/-- Python string `<` (bytewise, here codepoint-wise). -/
def strLt (a b : String) : Bool := cmpChars a.toList b.toList == .lt

/-- Python string `<=`. -/
def strLe (a b : String) : Bool := cmpChars a.toList b.toList != .gt

/-- The `Installer.collected_files` property: all priority keys of the
nested chain, sorted descending as strings; an empty-initialized ChainMap
is extended with the merged bucket of each key in that order and then
flattened to a plain dict, so the bucket whose priority string sorts
highest wins per source. -/
def collectedFiles (cmaps : List FileLayer) : Dict String :=
  let sortedKeys := stableSortBy (fun a b => strLe b a) (chainKeys cmaps)
  let finalMaps : List (Dict String) := [] :: sortedKeys.map (fun k => (nestedGet cmaps k).getD [])
  chainFlatten finalMaps

/-- The `Installer.flag_states` property: `dict(self._flag_states)`. -/
def flagStates (fmaps : List FlagLayer) : Dict String := chainFlatten fmaps

/-! ### Configuration model (the parsed ModuleConfig tree) -/

/-- One child of a `dependencyType/patterns` element. -/
structure PatternConf : Type where
  deps : Option DepRoot
  typeName : String
deriving Repr

/-- A plugin's `typeDescriptor`: either an explicit `type` child or a
`dependencyType` with a default and a pattern list. -/
inductive TypeDescriptor : Type
  | explicitType (name : String)
  | dependencyType (defaultName : String) (patterns : List PatternConf)
deriving Repr

structure PluginConf : Type where
  name : String
  description : String
  image : Option String
  typeDesc : TypeDescriptor
  files : Option (List FileItem)
  conditionFlags : Option (List FlagItem)
deriving Repr

structure PluginsRoot : Type where
  order : Option String
  plugins : List PluginConf
deriving Repr

structure GroupConf : Type where
  name : String
  gtype : String
  plugins : Option PluginsRoot
deriving Repr

structure GroupsRoot : Type where
  order : Option String
  groups : List GroupConf
deriving Repr

structure StepConf : Type where
  name : String
  visible : Option DepRoot
  optionalFileGroups : Option GroupsRoot
deriving Repr

structure StepsRoot : Type where
  order : Option String
  steps : List StepConf
deriving Repr

/-- One child of `conditionalFileInstalls/patterns`. -/
structure CondPattern : Type where
  deps : Option DepRoot
  files : Option (List FileItem)
deriving Repr

structure ModuleConf : Type where
  moduleDependencies : Option DepRoot
  requiredInstallFiles : Option (List FileItem)
  installSteps : Option StepsRoot
  conditionalFileInstalls : Option (List CondPattern)
deriving Repr

/-- `_ordered_list`: explicit document order, or a stable sort by the
`name` attribute, ascending by default and descending for any other
`order` value. -/
def orderedList {α : Type} (name : α → String) (order : Option String) (xs : List α) : List α :=
  match order.getD "Ascending" with
  | "Explicit" => xs
  | "Ascending" => stableSortBy (fun a b => strLe (name a) (name b)) xs
  | _ => stableSortBy (fun a b => strLe (name b) (name a)) xs

/-! ### Step views (the `step_dict` handed to the caller) -/

structure VPlugin : Type where
  id : String
  name : String
  description : String
  image : String
  ptype : String
deriving Repr, DecidableEq

structure VGroup : Type where
  name : String
  gtype : String
  id : String
  plugins : List VPlugin
deriving Repr, DecidableEq

structure StepView : Type where
  name : String
  groups : List VGroup
deriving Repr, DecidableEq

/-- Engine-generated unique identifiers (`uuid.uuid4()` modelled by a
counter-indexed supply). -/
def freshId (n : Nat) : String := "uuid-" ++ toString n

/-- First pattern of the `dependencyType` whose dependencies hold (only
`MissingDependency` means "try the next pattern"), else the default. -/
def resolvePattern (facts : Facts) (defaultName : String) :
    List PatternConf → Except PyError String
  | [] => .ok defaultName
  | p :: ps =>
    match assertDependencies facts p.deps with
    | .ok _ => .ok p.typeName
    | .error (.missingDependency _) => resolvePattern facts defaultName ps
    | .error e => .error e

def resolvePluginType (facts : Facts) : TypeDescriptor → Except PyError String
  | .explicitType n => .ok n
  | .dependencyType d ps => resolvePattern facts d ps

def buildPlugin (facts : Facts) (ctr : Nat) (p : PluginConf) : Except PyError (VPlugin × Nat) := do
  let pt ← resolvePluginType facts p.typeDesc
  .ok ({ id := freshId ctr, name := p.name, description := p.description,
         image := p.image.getD "", ptype := pt }, ctr + 1)

/-- Build the step's group/plugin views and the `id_dict` mapping each
fresh plugin id back to its configuration element. -/
def buildStepView (facts : Facts) (step : StepConf) (ctr : Nat) :
    Except PyError (StepView × Dict PluginConf × Nat) := do
  let groups :=
    match step.optionalFileGroups with
    | none => []
    | some gr => orderedList (fun (g : GroupConf) => g.name) gr.order gr.groups
  let (vgs, idd, ctr') ← groups.foldlM
    (fun (acc : List VGroup × Dict PluginConf × Nat) g => do
      let gid := freshId acc.2.2
      let plugins :=
        match g.plugins with
        | none => []
        | some pr => orderedList (fun (p : PluginConf) => p.name) pr.order pr.plugins
      let (vps, idd2, c2) ← plugins.foldlM
        (fun (pacc : List VPlugin × Dict PluginConf × Nat) p => do
          let (vp, c') ← buildPlugin facts pacc.2.2 p
          .ok (pacc.1 ++ [vp], dset pacc.2.1 vp.id p, c'))
        ([], acc.2.1, acc.2.2 + 1)
      .ok (acc.1 ++ [{ name := g.name, gtype := g.gtype, id := gid, plugins := vps }], idd2, c2))
    ([], [], ctr)
  .ok ({ name := step.name, groups := vgs }, idd, ctr')

/-! ### Answer validation and normalization (lines 669-715) -/

abbrev Answer := Dict (List String)

/-- The `for plugin_id in answer[group_id]` scan: an unknown id makes the
`next(...)` lookup raise StopIteration; a NotUsable plugin raises
ValueError. -/
def checkNotUsable (g : VGroup) : List String → Except PyError Unit
  | [] => .ok ()
  | pid :: rest =>
    match g.plugins.find? (fun p => p.id == pid) with
    | none => .error .stopIteration
    | some p =>
      if p.ptype == "NotUsable" then
        .error (.valueError ("\"" ++ p.name ++ "\" cannot be selected."))
      else checkNotUsable g rest

/-- One iteration of the Required-forcing loop:
`answer.setdefault(group_id, []).append(plugin['id'])`. -/
def forceStep (gid : String) (a : Answer) (p : VPlugin) : Answer :=
  if p.ptype == "Required" then dset a gid ((dget a gid).getD [] ++ [p.id]) else a

/-- The Required-forcing loop over the group's plugins. -/
def forceRequired (g : VGroup) (ans : Answer) : Answer :=
  g.plugins.foldl (forceStep g.id) ans

/-- One iteration of the validation loop over `step_dict['groups']`:
count checks on the caller's raw selection, the NotUsable scan, the
SelectAll overwrite, then the Required forcing. -/
def processGroup (ans : Answer) (g : VGroup) : Except PyError Answer :=
  let sel := (dget ans g.id).getD []
  if g.gtype == "SelectExactlyOne" && sel.length != 1 then
    .error (.valueError ("Group \"" ++ g.name ++ "\" requires exactly one choice."))
  else if g.gtype == "SelectAtMostOne" && decide (sel.length > 1) then
    .error (.valueError ("Group \"" ++ g.name ++ "\" allows at most one choice."))
  else if g.gtype == "SelectAtLeastOne" && decide (sel.length < 1) then
    .error (.valueError ("Group \"" ++ g.name ++ "\" requires at least one choice."))
  else
    match (match dget ans g.id with
           | none => Except.ok ()
           | some pids => checkNotUsable g pids) with
    | .error e => .error e
    | .ok _ =>
      let ans1 := if g.gtype == "SelectAll" then dset ans g.id (g.plugins.map (·.id)) else ans
      .ok (forceRequired g ans1)

/-- `answer[group_id] = sorted(set(answer[group_id]), key=plugin index)`:
deduplicate and reorder to the plugin order of the group; an unknown
group or plugin id raises StopIteration from `next(...)`. -/
def normalizeEntry (step : StepView) (gid : String) (pids : List String) :
    Except PyError (String × List String) :=
  match step.groups.find? (fun g => g.id == gid) with
  | none => .error .stopIteration
  | some g =>
    if pids.all (fun pid => g.plugins.any (fun p => p.id == pid)) then
      .ok (gid, (g.plugins.filter (fun p => pids.contains p.id)).map (·.id))
    else .error .stopIteration

/-- The `for group_id in answer` normalization loop over the entries. -/
def normEntries (step : StepView) : List (String × List String) → Except PyError Answer
  | [] => .ok []
  | kv :: rest =>
    match normalizeEntry step kv.1 kv.2 with
    | .error e => .error e
    | .ok kv' =>
      match normEntries step rest with
      | .error e => .error e
      | .ok rest' => .ok (kv' :: rest')

/-- Lines 669-715: validate the raw answer group by group, then
normalize each entry and order the entries by group position. -/
def validateAnswer (step : StepView) (ans : Answer) : Except PyError Answer :=
  match step.groups.foldlM processGroup ans with
  | .error e => .error e
  | .ok a1 =>
    match normEntries step a1 with
    | .error e => .error e
    | .ok a2 =>
      .ok (step.groups.filterMap (fun g => (dget a2 g.id).map (fun pids => (g.id, pids))))

/-- The caller-visible selection count of a group in a raw answer:
`len(answer.get(group_id, []))`. -/
def rawCount (ans : Answer) (g : VGroup) : Nat := ((dget ans g.id).getD []).length

/-- Whether the caller's raw selection count violates the group kind
(the three conditions of lines 672-688). -/
def countViolation (ans : Answer) (g : VGroup) : Bool :=
  (g.gtype == "SelectExactlyOne" && rawCount ans g != 1) ||
  (g.gtype == "SelectAtMostOne" && decide (rawCount ans g > 1)) ||
  (g.gtype == "SelectAtLeastOne" && decide (rawCount ans g < 1))

/-- Whether the caller's raw selection for the group names a NotUsable
plugin (lines 690-696). -/
def notUsableSel (ans : Answer) (g : VGroup) : Bool :=
  match dget ans g.id with
  | none => false
  | some pids =>
    pids.any (fun pid =>
      match g.plugins.find? (fun p => p.id == pid) with
      | some p => p.ptype == "NotUsable"
      | none => false)

/-! ### The installer state machine (`Installer._installer`) -/

/-- Values a caller may put into the answer dict; truthiness follows
Python. -/
inductive PyVal : Type
  | pyBool (b : Bool)
  | pyList (ids : List String)
  | pyNone
  | pyStr (s : String)
  | pyInt (n : Int)
deriving Repr, DecidableEq

def truthy : PyVal → Bool
  | .pyBool b => b
  | .pyList l => !l.isEmpty
  | .pyNone => false
  | .pyStr s => !(s == "")
  | .pyInt n => !(n == 0)

/-- Coerce the remaining answer entries to id lists; `len()` / iteration
over a non-list value raises TypeError. -/
def toAnswer : Dict PyVal → Except PyError Answer
  | [] => .ok []
  | (k, .pyList l) :: rest => do
    let r ← toAnswer rest
    .ok ((k, l) :: r)
  | (_, _) :: _ => .error .typeError

inductive Phase : Type
  /-- Suspended at a bare `yield`: the next pull advances the step index. -/
  | awaitingStep
  /-- Suspended at `answer = yield step_dict` with the built view and its
  `id_dict`. -/
  | awaitingAnswer (sv : StepView) (idd : Dict PluginConf)
  /-- The generator has returned. -/
  | finished

structure EngineState : Type where
  flagMaps : List FlagLayer
  fileMaps : List FileLayer
  index : Int
  prevIndex : List Int
  counter : Nat
  phase : Phase

/-- The facts a dependency tree sees at a given flag-store state. -/
def factsOf (flagMaps : List FlagLayer) (dest : Option (String → Bool))
    (gv : Option String) : Facts :=
  { flags := fun k => (chainGet flagMaps k).getD "", dest := dest, gameVersion := gv }

/-- Lines 546-554: assert `moduleDependencies` against the empty flag
state, collect `requiredInstallFiles`, and suspend. -/
def primeEngine (conf : ModuleConf) (dest : Option (String → Bool)) (gv : Option String) :
    Except PyError EngineState :=
  match assertDependencies (factsOf [[]] dest gv) conf.moduleDependencies with
  | .error e => .error e
  | .ok _ =>
    .ok { flagMaps := [[]], fileMaps := collectFiles conf.requiredInstallFiles [[]],
          index := -1, prevIndex := [0], counter := 0, phase := .awaitingStep }

def stepListOf (conf : ModuleConf) : List StepConf :=
  match conf.installSteps with
  | none => []
  | some sr => orderedList (fun (st : StepConf) => st.name) sr.order sr.steps

/-- Lines 559-574: advance the index past steps whose `visible`
dependencies are unmet (only `MissingDependency` means "skip"),
scanning the remaining steps in order. -/
def findVisibleAux (dest : Option (String → Bool)) (gv : Option String)
    (flagMaps : List FlagLayer) : List StepConf → Nat → Except PyError (Option (Nat × StepConf))
  | [], _ => .ok none
  | st :: rest, j =>
    match assertDependencies (factsOf flagMaps dest gv) st.visible with
    | .ok _ => .ok (some (j, st))
    | .error (.missingDependency _) => findVisibleAux dest gv flagMaps rest (j + 1)
    | .error e => .error e

def findVisibleStep (dest : Option (String → Bool)) (gv : Option String)
    (flagMaps : List FlagLayer) (steps : List StepConf) (j : Nat) :
    Except PyError (Option (Nat × StepConf)) :=
  findVisibleAux dest gv flagMaps (steps.drop j) j

/-- Lines 729-742: the conditionalFileInstalls pass, collecting the
files of every pattern whose dependencies hold (only MissingDependency
means "pattern not applicable"). -/
def runConditional (dest : Option (String → Bool)) (gv : Option String)
    (flagMaps : List FlagLayer) (fileMaps : List FileLayer) :
    List CondPattern → Except PyError (List FileLayer)
  | [] => .ok fileMaps
  | pat :: rest =>
    match assertDependencies (factsOf flagMaps dest gv) pat.deps with
    | .ok _ => runConditional dest gv flagMaps (collectFiles pat.files fileMaps) rest
    | .error (.missingDependency _) => runConditional dest gv flagMaps fileMaps rest
    | .error e => .error e

/-- One `next()` on the suspended generator: find the next visible step
and yield its view, or run the terminal pass and finish. -/
def advanceEngine (conf : ModuleConf) (dest : Option (String → Bool)) (gv : Option String)
    (s : EngineState) : Except PyError EngineState :=
  match s.phase with
  | .awaitingStep =>
    let steps := stepListOf conf
    match findVisibleStep dest gv s.flagMaps steps (s.index + 1).toNat with
    | .error e => .error e
    | .ok none =>
      match runConditional dest gv s.flagMaps s.fileMaps
          (conf.conditionalFileInstalls.getD []) with
      | .error e => .error e
      | .ok maps =>
        .ok { s with index := Int.ofNat steps.length, fileMaps := maps, phase := .finished }
    | .ok (some (j, st)) =>
      match buildStepView (factsOf s.flagMaps dest gv) st s.counter with
      | .error e => .error e
      | .ok (sv, idd, ctr') =>
        .ok { s with index := Int.ofNat j, counter := ctr', phase := .awaitingAnswer sv idd }
  | .awaitingAnswer _ _ => .error .typeError
  | .finished => .error .stopIteration

/-- Lines 717-727: collect files and condition flags of every selected
plugin (in normalized order) into this step's fresh chain maps. -/
def collectStep (idd : Dict PluginConf) (norm : Answer) :
    Except PyError (List FileLayer × List FlagLayer) :=
  norm.foldlM
    (fun (acc : List FileLayer × List FlagLayer) kv =>
      kv.2.foldlM
        (fun (acc2 : List FileLayer × List FlagLayer) pid =>
          match dget idd pid with
          | none => .error .keyError
          | some p => .ok (collectFiles p.files acc2.1, collectFlags p.conditionFlags acc2.2))
        acc)
    ([[]], [[]])

/-- `send(answer)` on the generator suspended at a step (lines 638-727):
a truthy `previous_step` entry rewinds the cursor and pops at most one
non-base layer per store; otherwise the remaining entries are validated,
normalized, and collected into one new flag layer and one new file
layer. -/
def submitEngine (_conf : ModuleConf) (_dest : Option (String → Bool)) (_gv : Option String)
    (s : EngineState) (ans : Dict PyVal) : Except PyError EngineState :=
  match s.phase with
  | .awaitingAnswer sv idd =>
    let pv := (dget ans "previous_step").getD (.pyBool false)
    let rest := dremove ans "previous_step"
    if truthy pv then
      let (newIndex, newPrev) :=
        match s.prevIndex.getLast? with
        | some p => (p - 1, s.prevIndex.dropLast)
        | none => (-1, s.prevIndex)
      .ok { s with
        index := newIndex, prevIndex := newPrev,
        flagMaps := if s.flagMaps.length > 1 then s.flagMaps.tail else s.flagMaps,
        fileMaps := if s.fileMaps.length > 2 then s.fileMaps.tail else s.fileMaps,
        phase := .awaitingStep }
    else
      match toAnswer rest with
      | .error e => .error e
      | .ok rawAns =>
        match validateAnswer sv rawAns with
        | .error e => .error e
        | .ok norm =>
          match collectStep idd norm with
          | .error e => .error e
          | .ok (fileChain, flagChain) =>
            .ok { s with
              prevIndex := s.prevIndex ++ [s.index],
              flagMaps := chainFlatten flagChain :: s.flagMaps,
              fileMaps := nestedFlatten fileChain :: s.fileMaps,
              phase := .awaitingStep }
  | _ => .error .typeError

/-- The engine states visible to a caller: the primed state and
everything produced from it by successful pulls and submissions. -/
inductive Reachable (conf : ModuleConf) (dest : Option (String → Bool)) (gv : Option String) :
    EngineState → Prop
  | prime {s : EngineState} : primeEngine conf dest gv = .ok s → Reachable conf dest gv s
  | adv {s s' : EngineState} : Reachable conf dest gv s →
      advanceEngine conf dest gv s = .ok s' → Reachable conf dest gv s'
  | sub {s s' : EngineState} {ans : Dict PyVal} : Reachable conf dest gv s →
      submitEngine conf dest gv s ans = .ok s' → Reachable conf dest gv s'

/-- The base layers of the file store right after priming: the
required-files layer in front of the initial empty layer. -/
def baseFileMaps (conf : ModuleConf) : List FileLayer :=
  collectFiles conf.requiredInstallFiles [[]]

/-- The store-shape invariant of the engine: the flag store ends with
the initial empty layer, the file store ends with the two base layers
(required files over the initial empty layer), and until the generator
finishes the two stores carry the same number of pushed step layers. -/
def EngineInv (conf : ModuleConf) (s : EngineState) : Prop :=
  ∃ pre pre', s.flagMaps = pre ++ [[]] ∧ s.fileMaps = pre' ++ baseFileMaps conf ∧
    (s.phase ≠ .finished → pre.length = pre'.length)

/-! ### Concrete instances used by the claim theorems -/

/-- Plugin A of the end-to-end scenario: file `a.txt` → `data/a.txt`. -/
def scA : PluginConf :=
  { name := "A", description := "", image := none, typeDesc := .explicitType "Optional",
    files := some [{ source := "a.txt", destination := some "data/a.txt", prioAttr := none }],
    conditionFlags := none }

/-- Plugin B of the end-to-end scenario: file `b.txt` → `data/b.txt`. -/
def scB : PluginConf :=
  { name := "B", description := "", image := none, typeDesc := .explicitType "Optional",
    files := some [{ source := "b.txt", destination := some "data/b.txt", prioAttr := none }],
    conditionFlags := none }

/-- The scenario configuration: one step holding one SelectExactlyOne
group of the two plugins. -/
def scConf : ModuleConf :=
  { moduleDependencies := none,
    requiredInstallFiles := none,
    installSteps := some { order := some "Explicit", steps :=
      [{ name := "Step", visible := none,
         optionalFileGroups := some { order := some "Explicit", groups :=
           [{ name := "G", gtype := "SelectExactlyOne",
              plugins := some { order := some "Explicit", plugins := [scA, scB] } }] } }] },
    conditionalFileInstalls := none }

/-- The completed scenario run: prime, pull the step, answer with B
selected (the engine assigns id `uuid-0` to the group, `uuid-1` to A and
`uuid-2` to B), pull once more to finish, and read the terminal file
map. -/
def scRun : Except PyError (Dict String) := do
  let s0 ← primeEngine scConf none none
  let s1 ← advanceEngine scConf none none s0
  let s2 ← submitEngine scConf none none s1 [("uuid-0", .pyList ["uuid-2"])]
  let s3 ← advanceEngine scConf none none s2
  .ok (collectedFiles s3.fileMaps)

/-- The `collected_files` property as an operation on the engine state:
it computes the flattened map from the current layer sequence and
returns the state unmodified, mirroring the property body, which only
builds a fresh local ChainMap (lines 499-503) and never assigns to the
installer. -/
def readCollectedFiles (s : EngineState) : Dict String × EngineState :=
  (collectedFiles s.fileMaps, s)

/-- Two concrete engine states sharing a layer sequence but differing
elsewhere (used to witness determinism of the flattened view). -/
def sampleStateA : EngineState :=
  { flagMaps := [[]], fileMaps := [[("0", [("a.txt", "b.txt")])], []],
    index := 0, prevIndex := [0], counter := 3, phase := .awaitingStep }

def sampleStateB : EngineState :=
  { flagMaps := [[("f", "yes")], []], fileMaps := [[("0", [("a.txt", "b.txt")])], []],
    index := 2, prevIndex := [0, 1], counter := 9, phase := .finished }

/-- Facts with a single flag `f` set to "yes", no destination and no game
version. -/
def flagFFacts : Facts :=
  { flags := fun k => if k == "f" then "yes" else "", dest := none, gameVersion := none }

/-- A step with one SelectExactlyOne group holding an Optional plugin
and a Required plugin (used to witness answer validation). -/
def c5Step : StepView :=
  ⟨"S", [⟨"G", "SelectExactlyOne", "g1",
    [⟨"p1", "P1", "", "", "Optional"⟩, ⟨"p2", "P2", "", "", "Required"⟩]⟩]⟩

/-- A caller answer selecting exactly the Optional plugin. -/
def c5Ans : Answer := [("g1", ["p1"])]

/-- The state the scenario engine is in right after priming. -/
def scS0 : EngineState :=
  { flagMaps := [[]], fileMaps := [[], []], index := -1, prevIndex := [0], counter := 0,
    phase := .awaitingStep }

/-- The scenario engine suspended at its single step. -/
def scS1 : EngineState :=
  { flagMaps := [[]], fileMaps := [[], []], index := 0, prevIndex := [0], counter := 3,
    phase := .awaitingAnswer
      ⟨"Step", [⟨"G", "SelectExactlyOne", "uuid-0",
        [⟨"uuid-1", "A", "", "", "Optional"⟩, ⟨"uuid-2", "B", "", "", "Optional"⟩]⟩]⟩
      [("uuid-1", scA), ("uuid-2", scB)] }

/-- A concrete engine state suspended at a step, used to witness the
answer-submission theorems. -/
def sampleAwaitState : EngineState :=
  { flagMaps := [[]], fileMaps := [[], []], index := 0, prevIndex := [0], counter := 3,
    phase := .awaitingAnswer
      ⟨"Step", [⟨"G", "SelectAll", "uuid-0", [⟨"uuid-1", "P", "", "", "Optional"⟩]⟩]⟩
      [("uuid-1", scA)] }

end Boop

namespace Boop

/-! ## Helper lemmas -/

theorem dget_dset_same {β : Type} (d : Dict β) (k : String) (v : β) :
    dget (dset d k v) k = some v := by
  induction d with
  | nil => simp [dset, dget]
  | cons kv rest ih =>
    by_cases h : kv.1 == k
    · simp [dset, h, dget]
    · simp [dset, h, dget, ih]

theorem dget_dset_ne {β : Type} (d : Dict β) (k k' : String) (v : β) (h : k ≠ k') :
    dget (dset d k v) k' = dget d k' := by
  induction d with
  | nil => simp [dset, dget, h]
  | cons kv rest ih =>
    by_cases hk : kv.1 == k
    · have hkk : kv.1 = k := by simpa using hk
      simp [dset, hk, dget, hkk, h]
    · simp [dset, hk, dget, ih]

theorem dkeys_dset {β : Type} (d : Dict β) (k : String) (v : β) :
    dkeys (dset d k v) = if k ∈ dkeys d then dkeys d else dkeys d ++ [k] := by
  induction d with
  | nil => simp [dset, dkeys]
  | cons kv rest ih =>
    by_cases hk : kv.1 == k
    · have hkk : kv.1 = k := by simpa using hk
      simp [dset, hk, dkeys, hkk]
    · have hkk : ¬ k = kv.1 := by
        intro e; exact absurd (by simp [e]) hk
      simp only [dkeys] at ih
      simp only [dset, hk, Bool.false_eq_true, if_false, dkeys, List.map_cons]
      rw [ih]
      by_cases hmem : k ∈ rest.map (fun x => x.1) <;>
        simp [List.mem_cons, hkk, hmem]

theorem dget_dremove {β : Type} (d : Dict β) (k : String) :
    dget (dremove d k) k = none := by
  induction d with
  | nil => rfl
  | cons kv rest ih =>
    by_cases h : kv.1 == k
    · simp [dremove, List.filter_cons, h] at ih ⊢
      exact ih
    · simpa [dremove, List.filter_cons, h, dget] using ih

theorem dremove_idem {β : Type} (d : Dict β) (k : String) :
    dremove (dremove d k) k = dremove d k := by
  simp [dremove, List.filter_filter]

theorem dget_of_mem_nodup {β : Type} (d : Dict β) (kv : String × β)
    (hmem : kv ∈ d) (hnd : (dkeys d).Nodup) : dget d kv.1 = some kv.2 := by
  induction d with
  | nil => cases hmem
  | cons hd rest ih =>
    rcases List.mem_cons.mp hmem with h | h
    · subst h; simp [dget]
    · have hne : hd.1 ≠ kv.1 := by
        intro e
        have : kv.1 ∈ dkeys rest := List.mem_map.mpr ⟨kv, h, rfl⟩
        rw [← e] at this
        exact (List.nodup_cons.mp (by simpa [dkeys] using hnd)).1 this
      have : (dkeys rest).Nodup := (List.nodup_cons.mp (by simpa [dkeys] using hnd)).2
      simp [dget, hne, ih h this]

theorem cmpChars_self : ∀ a : List Char, cmpChars a a = .eq := by
  intro a
  induction a with
  | nil => rfl
  | cons x xs ih => simp [cmpChars, ih]

theorem cmpChars_swap : ∀ a b : List Char, cmpChars b a = (cmpChars a b).swap := by
  intro a
  induction a with
  | nil => intro b; cases b <;> rfl
  | cons x xs ih =>
    intro b
    cases b with
    | nil => rfl
    | cons y ys =>
      simp only [cmpChars]
      rcases lt_trichotomy x y with h | h | h
      · simp [h, lt_asymm h, Ordering.swap]
      · subst h
        simp [lt_irrefl, Ordering.swap, ih ys]
      · simp [h, lt_asymm h, Ordering.swap]

theorem cmpVComp_self : ∀ a : VComp, cmpVComp a a = .eq := by
  intro a
  cases a with
  | num n => simp [cmpVComp, Nat.compare_eq_eq]
  | str s => simp [cmpVComp, cmpChars_self]

theorem cmpVList_prefix : ∀ (xs : List VComp) (y : VComp) (ys : List VComp),
    cmpVList xs (xs ++ y :: ys) = .lt := by
  intro xs y ys
  induction xs with
  | nil => rfl
  | cons x rest ih => simp [cmpVList, cmpVComp_self x, ih]

/-- Under the And operator, a prefix of passing checks is skipped and the
first check whose `missed_dep` is non-empty raises immediately, whatever
follows it. -/
theorem evalAnd_first_fail (facts : Facts) (c : Check) (fi : FailureInfo)
    (hc : checkMissed facts c = .ok (some fi)) :
    ∀ pre : List Check, (∀ x ∈ pre, checkMissed facts x = .ok none) →
      ∀ (total num : Nat) (last : Option (Option FailureInfo)) (post : List Check),
        evalDeps facts "And" total (pre ++ c :: post) num last = .error (raiseMissing fi) := by
  intro pre
  induction pre with
  | nil =>
    intro _ total num last post
    simp [evalDeps, hc]
  | cons x pre' ih =>
    intro h total num last post
    have hx : checkMissed facts x = .ok none := h x (by simp)
    have hrest : ∀ y ∈ pre', checkMissed facts y = .ok none := fun y hy => h y (by simp [hy])
    simpa [evalDeps, hx] using ih hrest total num (some none) post

/-- Characterization of the Or loop when every check completes normally:
the run fails exactly when every check missed, and the reported failure
is the binding of `missed_dep` left by the last iteration. -/
theorem evalOr_char (facts : Facts) (m : Check → Option FailureInfo) :
    ∀ (cs : List Check) (num : Nat) (last : Option (Option FailureInfo)) (total : Nat),
      (∀ x ∈ cs, checkMissed facts x = .ok (m x)) →
      evalDeps facts "Or" total cs num last =
        if num + (cs.filter (fun x => (m x).isSome)).length == total then
          match cs.foldl (fun _ x => some (m x)) last with
          | none => .error .unboundLocalError
          | some none => .error .typeError
          | some (some fi) => .error (raiseMissing fi)
        else .ok () := by
  intro cs
  induction cs with
  | nil =>
    intro num last total _
    rw [evalDeps.eq_def]
    simp
  | cons c rest ih =>
    intro num last total h
    have hc : checkMissed facts c = .ok (m c) := h c (by simp)
    have hrest : ∀ x ∈ rest, checkMissed facts x = .ok (m x) := fun x hx => h x (by simp [hx])
    cases hm : m c with
    | none =>
      rw [hm] at hc
      simp only [evalDeps, hc]
      rw [ih num (some none) total hrest]
      simp [hm]
    | some fi =>
      rw [hm] at hc
      simp only [evalDeps, hc]
      rw [if_neg (by decide)]
      rw [ih (num + 1) (some (some fi)) total hrest]
      have harith : num + 1 + (rest.filter (fun x => (m x).isSome)).length
          = num + ((rest.filter (fun x => (m x).isSome)).length + 1) := by omega
      simp [hm, harith]

theorem filter_length_eq_iff {α : Type} (p : α → Bool) :
    ∀ l : List α, ((l.filter p).length = l.length ↔ ∀ x ∈ l, p x) := by
  intro l
  induction l with
  | nil => simp
  | cons x xs ih =>
    simp only [List.filter_cons, List.length_cons]
    by_cases hx : p x
    · simp [hx, ih]
    · have hle := List.length_filter_le p xs
      simp [hx]
      omega

/-- Under the Or operator, checks that complete normally (missing or not)
never abort the loop by themselves. -/
theorem evalOr_skip_pass (facts : Facts) (c : Check) (post : List Check) (e : PyError)
    (hc : checkMissed facts c = .error e) :
    ∀ pre : List Check, (∀ x ∈ pre, ∃ mx, checkMissed facts x = .ok mx) →
      ∀ (total num : Nat) (last : Option (Option FailureInfo)),
        evalDeps facts "Or" total (pre ++ c :: post) num last = .error e := by
  intro pre
  induction pre with
  | nil =>
    intro _ total num last
    simp [evalDeps, hc]
  | cons x pre' ih =>
    intro h total num last
    obtain ⟨mx, hx⟩ := h x (by simp)
    have hrest : ∀ y ∈ pre', ∃ my, checkMissed facts y = .ok my := fun y hy => h y (by simp [hy])
    cases mx with
    | none => simpa [evalDeps, hx] using ih hrest total num (some none)
    | some fi =>
      simpa [evalDeps, hx] using ih hrest total (num + 1) (some (some fi))

theorem dget_some_mem {β : Type} (d : Dict β) (k : String) (v : β)
    (h : dget d k = some v) : (k, v) ∈ d := by
  induction d with
  | nil => cases h
  | cons kv rest ih =>
    obtain ⟨a, b⟩ := kv
    by_cases hk : a == k
    · have ha : a = k := by simpa using hk
      simp only [dget, hk, if_true, Option.some.injEq] at h
      subst ha; subst h
      exact List.mem_cons_self _ _
    · simp only [dget, hk, Bool.false_eq_true, if_false] at h
      exact List.mem_cons_of_mem _ (ih h)

theorem dget_eq_none_of_not_mem {β : Type} (d : Dict β) (k : String)
    (h : k ∉ dkeys d) : dget d k = none := by
  induction d with
  | nil => rfl
  | cons kv rest ih =>
    simp only [dkeys, List.map_cons, List.mem_cons] at h
    push_neg at h
    have hk : ¬ (kv.1 == k) = true := by simpa using fun e => h.1 e.symm
    simp only [dget, hk, Bool.false_eq_true, if_false]
    exact ih (by simpa [dkeys] using h.2)

theorem nodup_dset {β : Type} (d : Dict β) (k : String) (v : β)
    (h : (dkeys d).Nodup) : (dkeys (dset d k v)).Nodup := by
  rw [dkeys_dset]
  by_cases hm : k ∈ dkeys d
  · rw [if_pos hm]; exact h
  · rw [if_neg hm]
    refine List.Nodup.append h (by simp) ?_
    intro a ha hb
    simp only [List.mem_singleton] at hb
    subst hb
    exact hm ha

theorem mem_dkeys_dset {β : Type} (d : Dict β) (k : String) (v : β) (k' : String)
    (h : k' ∈ dkeys (dset d k v)) : k' ∈ dkeys d ∨ k' = k := by
  rw [dkeys_dset] at h
  by_cases hm : k ∈ dkeys d
  · rw [if_pos hm] at h; exact Or.inl h
  · rw [if_neg hm] at h
    rcases List.mem_append.mp h with h' | h'
    · exact Or.inl h'
    · exact Or.inr (by simpa using h')

theorem forceRequired_eq_foldl (g : VGroup) (a : Answer) :
    forceRequired g a = g.plugins.foldl (forceStep g.id) a := rfl

theorem force_aux_other (gid k : String) (hk : k ≠ gid) :
    ∀ (ps : List VPlugin) (a : Answer), dget (ps.foldl (forceStep gid) a) k = dget a k := by
  intro ps
  induction ps with
  | nil => intro a; rfl
  | cons p pr ih =>
    intro a
    by_cases hp : (p.ptype == "Required") = true
    · simp only [List.foldl_cons, forceStep, hp, if_true]
      rw [ih]
      exact dget_dset_ne a gid k _ (Ne.symm hk)
    · simp only [List.foldl_cons, forceStep, hp, Bool.false_eq_true, if_false]
      exact ih a

theorem force_aux_get (gid : String) :
    ∀ (ps : List VPlugin) (a : Answer),
      dget (ps.foldl (forceStep gid) a) gid
        = if (ps.filter (fun p => p.ptype == "Required")) = [] then dget a gid
          else some ((dget a gid).getD []
            ++ ((ps.filter (fun p => p.ptype == "Required")).map (fun p => p.id))) := by
  intro ps
  induction ps with
  | nil => intro a; simp
  | cons p pr ih =>
    intro a
    by_cases hp : (p.ptype == "Required") = true
    · simp only [List.foldl_cons, forceStep, hp, if_true, List.filter_cons]
      rw [ih]
      by_cases hrest : (pr.filter (fun p => p.ptype == "Required")) = [] <;>
        simp [hrest, hp, dget_dset_same, List.append_assoc]
    · simp only [List.foldl_cons, forceStep, hp, Bool.false_eq_true, if_false, List.filter_cons]
      rw [ih]

theorem force_aux_nodup (gid : String) :
    ∀ (ps : List VPlugin) (a : Answer),
      (dkeys a).Nodup → (dkeys (ps.foldl (forceStep gid) a)).Nodup := by
  intro ps
  induction ps with
  | nil => intro a h; exact h
  | cons p pr ih =>
    intro a h
    by_cases hp : (p.ptype == "Required") = true
    · simp only [List.foldl_cons, forceStep, hp, if_true]
      exact ih _ (nodup_dset _ _ _ h)
    · simp only [List.foldl_cons, forceStep, hp, Bool.false_eq_true, if_false]
      exact ih _ h

theorem force_aux_keys (gid : String) :
    ∀ (ps : List VPlugin) (a : Answer) (k' : String),
      k' ∈ dkeys (ps.foldl (forceStep gid) a) → k' ∈ dkeys a ∨ k' = gid := by
  intro ps
  induction ps with
  | nil => intro a k' h; exact Or.inl h
  | cons p pr ih =>
    intro a k' h
    by_cases hp : (p.ptype == "Required") = true
    · simp only [List.foldl_cons, forceStep, hp, if_true] at h
      rcases ih _ _ h with h' | h'
      · exact mem_dkeys_dset _ _ _ _ h'
      · exact Or.inr h'
    · simp only [List.foldl_cons, forceStep, hp, Bool.false_eq_true, if_false] at h
      exact ih _ _ h

theorem checkNotUsable_char (g : VGroup) :
    ∀ pids : List String,
      (∀ pid ∈ pids, ∃ p ∈ g.plugins, p.id = pid) →
      (((∃ e, checkNotUsable g pids = .error e) ↔
         pids.any (fun pid =>
           match g.plugins.find? (fun p => p.id == pid) with
           | some p => p.ptype == "NotUsable"
           | none => false) = true) ∧
       (∀ e, checkNotUsable g pids = .error e → ∃ m, e = .valueError m)) := by
  intro pids
  induction pids with
  | nil =>
    intro _
    constructor
    · simp [checkNotUsable]
    · intro e h; exact absurd h (by simp [checkNotUsable])
  | cons pid rest ih =>
    intro hval
    obtain ⟨p0, hp0, hid0⟩ := hval pid (by simp)
    have hfind : (g.plugins.find? (fun p => p.id == pid)).isSome :=
      List.find?_isSome.mpr ⟨p0, hp0, by simp [hid0]⟩
    obtain ⟨p, hp⟩ := Option.isSome_iff_exists.mp hfind
    have hrest := ih (fun q hq => hval q (by simp [hq]))
    by_cases hnu : (p.ptype == "NotUsable") = true
    · constructor
      · simp [checkNotUsable, hp, hnu]
      · intro e h
        simp only [checkNotUsable, hp, hnu, if_true] at h
        exact ⟨_, by injection h.symm⟩
    · constructor
      · rw [List.any_cons]
        simp only [checkNotUsable, hp, hnu, Bool.false_eq_true, if_false]
        simpa [hnu] using hrest.1
      · intro e h
        apply hrest.2 e
        simpa [checkNotUsable, hp, hnu] using h

/-- The properties of `forceRequired` applied after the SelectAll
overwrite: only the group's own key changes, key well-formedness is
preserved, the entry stays within the group's plugin ids, and every
Required plugin id ends up selected. -/
theorem postProcess_props (ans ans1 : Answer) (g : VGroup)
    (hval : ∀ pid ∈ (dget ans g.id).getD [], ∃ p ∈ g.plugins, p.id = pid)
    (hans1 : ans1 = if g.gtype == "SelectAll"
        then dset ans g.id (g.plugins.map (fun p => p.id)) else ans) :
    (∀ k, k ≠ g.id → dget (forceRequired g ans1) k = dget ans k) ∧
    ((dkeys ans).Nodup → (dkeys (forceRequired g ans1)).Nodup) ∧
    (∀ k', k' ∈ dkeys (forceRequired g ans1) → k' ∈ dkeys ans ∨ k' = g.id) ∧
    (∀ pid ∈ (dget (forceRequired g ans1) g.id).getD [], ∃ p ∈ g.plugins, p.id = pid) ∧
    (∀ p ∈ g.plugins, p.ptype = "Required" →
      ∃ pids, dget (forceRequired g ans1) g.id = some pids ∧ p.id ∈ pids) := by
  have hval1 : ∀ pid ∈ (dget ans1 g.id).getD [], ∃ p ∈ g.plugins, p.id = pid := by
    rw [hans1]
    by_cases hsa : (g.gtype == "SelectAll") = true
    · rw [if_pos hsa, dget_dset_same]
      intro pid hpid
      simp only [Option.getD_some] at hpid
      obtain ⟨p, hp, hpe⟩ := List.mem_map.mp hpid
      exact ⟨p, hp, hpe⟩
    · rw [if_neg hsa]; exact hval
  have hget1 : ∀ k, k ≠ g.id → dget ans1 k = dget ans k := by
    intro k hk
    rw [hans1]
    by_cases hsa : (g.gtype == "SelectAll") = true
    · rw [if_pos hsa]; exact dget_dset_ne ans g.id k _ (Ne.symm hk)
    · rw [if_neg hsa]
  have hkeys1 : ∀ k', k' ∈ dkeys ans1 → k' ∈ dkeys ans ∨ k' = g.id := by
    intro k' hk'
    rw [hans1] at hk'
    by_cases hsa : (g.gtype == "SelectAll") = true
    · rw [if_pos hsa] at hk'; exact mem_dkeys_dset _ _ _ _ hk'
    · rw [if_neg hsa] at hk'; exact Or.inl hk'
  have hnd1 : (dkeys ans).Nodup → (dkeys ans1).Nodup := by
    intro hnd
    rw [hans1]
    by_cases hsa : (g.gtype == "SelectAll") = true
    · rw [if_pos hsa]; exact nodup_dset _ _ _ hnd
    · rw [if_neg hsa]; exact hnd
  refine ⟨?_, ?_, ?_, ?_, ?_⟩
  · intro k hk
    rw [forceRequired_eq_foldl, force_aux_other g.id k hk]
    exact hget1 k hk
  · intro hnd
    rw [forceRequired_eq_foldl]
    exact force_aux_nodup g.id g.plugins ans1 (hnd1 hnd)
  · intro k' hk'
    rw [forceRequired_eq_foldl] at hk'
    rcases force_aux_keys g.id g.plugins ans1 k' hk' with h' | h'
    · exact hkeys1 k' h'
    · exact Or.inr h'
  · rw [forceRequired_eq_foldl, force_aux_get]
    by_cases hfil : (g.plugins.filter (fun p => p.ptype == "Required")) = []
    · rw [if_pos hfil]; exact hval1
    · rw [if_neg hfil]
      intro pid hpid
      simp only [Option.getD_some] at hpid
      rcases List.mem_append.mp hpid with h' | h'
      · exact hval1 pid h'
      · obtain ⟨q, hq, hqe⟩ := List.mem_map.mp h'
        exact ⟨q, (List.mem_filter.mp hq).1, hqe⟩
  · intro p hp hreq
    have hpf : p ∈ g.plugins.filter (fun p => p.ptype == "Required") :=
      List.mem_filter.mpr ⟨hp, by simp [hreq]⟩
    have hfil : (g.plugins.filter (fun p => p.ptype == "Required")) ≠ [] :=
      List.ne_nil_of_mem hpf
    rw [forceRequired_eq_foldl, force_aux_get, if_neg hfil]
    refine ⟨_, rfl, ?_⟩
    exact List.mem_append_right _ (List.mem_map.mpr ⟨p, hpf, rfl⟩)

/-- Characterization of one iteration of the validation loop: it raises
exactly when the caller's raw selection violates the group's count
constraint or names a NotUsable plugin, always via ValueError, and on
success it only rewrites the group's own entry, forcing every Required
plugin in. -/
theorem processGroup_char (ans : Answer) (g : VGroup)
    (hval : ∀ pid ∈ (dget ans g.id).getD [], ∃ p ∈ g.plugins, p.id = pid) :
    ((∃ e, processGroup ans g = .error e) ↔
      (countViolation ans g = true ∨ notUsableSel ans g = true)) ∧
    (∀ e, processGroup ans g = .error e → ∃ m, e = .valueError m) ∧
    (∀ ans', processGroup ans g = .ok ans' →
      (∀ k, k ≠ g.id → dget ans' k = dget ans k) ∧
      ((dkeys ans).Nodup → (dkeys ans').Nodup) ∧
      (∀ k', k' ∈ dkeys ans' → k' ∈ dkeys ans ∨ k' = g.id) ∧
      (∀ pid ∈ (dget ans' g.id).getD [], ∃ p ∈ g.plugins, p.id = pid) ∧
      (∀ p ∈ g.plugins, p.ptype = "Required" →
        ∃ pids, dget ans' g.id = some pids ∧ p.id ∈ pids)) := by
  cases hc1 : (g.gtype == "SelectExactlyOne" && ((dget ans g.id).getD []).length != 1) with
  | true =>
    have hpe : processGroup ans g
        = .error (.valueError ("Group \"" ++ g.name ++ "\" requires exactly one choice.")) := by
      simp only [processGroup, hc1, if_true]
    refine ⟨⟨fun _ => Or.inl (by
        simp only [countViolation, rawCount, hc1, Bool.true_or]), fun _ => ⟨_, hpe⟩⟩,
      ?_, ?_⟩
    · intro e he
      rw [hpe] at he
      injection he with h
      exact ⟨_, h.symm⟩
    · intro ans' h'
      rw [hpe] at h'
      exact absurd h' (by simp)
  | false =>
  cases hc2 : (g.gtype == "SelectAtMostOne" && decide (((dget ans g.id).getD []).length > 1)) with
  | true =>
    have hpe : processGroup ans g
        = .error (.valueError ("Group \"" ++ g.name ++ "\" allows at most one choice.")) := by
      simp only [processGroup, hc1, Bool.false_eq_true, if_false, hc2, if_true]
    refine ⟨⟨fun _ => Or.inl (by
        simp only [countViolation, rawCount, hc1, hc2, Bool.false_or, Bool.true_or]),
        fun _ => ⟨_, hpe⟩⟩,
      ?_, ?_⟩
    · intro e he
      rw [hpe] at he
      injection he with h
      exact ⟨_, h.symm⟩
    · intro ans' h'
      rw [hpe] at h'
      exact absurd h' (by simp)
  | false =>
  cases hc3 : (g.gtype == "SelectAtLeastOne" && decide (((dget ans g.id).getD []).length < 1)) with
  | true =>
    have hpe : processGroup ans g
        = .error (.valueError ("Group \"" ++ g.name ++ "\" requires at least one choice.")) := by
      simp only [processGroup, hc1, hc2, Bool.false_eq_true, if_false, hc3, if_true]
    refine ⟨⟨fun _ => Or.inl (by
        simp only [countViolation, rawCount, hc1, hc2, hc3, Bool.false_or, Bool.or_true]),
        fun _ => ⟨_, hpe⟩⟩,
      ?_, ?_⟩
    · intro e he
      rw [hpe] at he
      injection he with h
      exact ⟨_, h.symm⟩
    · intro ans' h'
      rw [hpe] at h'
      exact absurd h' (by simp)
  | false =>
  have hcv : countViolation ans g = false := by
    simp only [countViolation, rawCount, hc1, hc2, hc3, Bool.false_or]
  have hn1 : ¬ ((g.gtype == "SelectExactlyOne"
      && ((dget ans g.id).getD []).length != 1) = true) := by
    rw [hc1]; exact Bool.false_ne_true
  have hn2 : ¬ ((g.gtype == "SelectAtMostOne"
      && decide (((dget ans g.id).getD []).length > 1)) = true) := by
    rw [hc2]; exact Bool.false_ne_true
  have hn3 : ¬ ((g.gtype == "SelectAtLeastOne"
      && decide (((dget ans g.id).getD []).length < 1)) = true) := by
    rw [hc3]; exact Bool.false_ne_true
  cases hdg : dget ans g.id with
  | none =>
    have hok : processGroup ans g
        = .ok (forceRequired g (if g.gtype == "SelectAll"
            then dset ans g.id (g.plugins.map (fun p => p.id)) else ans)) := by
      simp only [processGroup]
      rw [if_neg hn1, if_neg hn2, if_neg hn3, hdg]
    have hnu : notUsableSel ans g = false := by simp [notUsableSel, hdg]
    obtain ⟨f1, f2, f3, f4, f5⟩ := postProcess_props ans _ g hval rfl
    refine ⟨?_, ?_, ?_⟩
    · constructor
      · rintro ⟨e, he⟩
        rw [hok] at he
        exact absurd he (by simp)
      · intro hor
        rcases hor with h | h
        · rw [hcv] at h; cases h
        · rw [hnu] at h; cases h
    · intro e he
      rw [hok] at he
      exact absurd he (by simp)
    · intro ans' h'
      rw [hok] at h'
      injection h' with h''
      subst h''
      exact ⟨f1, f2, f3, f4, f5⟩
  | some pids =>
    have hval' : ∀ pid ∈ pids, ∃ p ∈ g.plugins, p.id = pid := by
      intro pid hpid
      exact hval pid (by simp [hdg, hpid])
    have hcu := checkNotUsable_char g pids hval'
    have hnuEq : notUsableSel ans g
        = pids.any (fun pid =>
            match g.plugins.find? (fun p => p.id == pid) with
            | some p => p.ptype == "NotUsable"
            | none => false) := by
      simp [notUsableSel, hdg]
    cases hcn : checkNotUsable g pids with
    | error e0 =>
      have hNU := hcu.1.mp ⟨e0, hcn⟩
      have hpe : processGroup ans g = .error e0 := by
        simp only [processGroup]
        rw [if_neg hn1, if_neg hn2, if_neg hn3, hdg]
        dsimp only
        rw [hcn]
      refine ⟨⟨fun _ => Or.inr (by rw [hnuEq]; exact hNU), fun _ => ⟨e0, hpe⟩⟩, ?_, ?_⟩
      · intro e he
        rw [hpe] at he
        injection he with h
        obtain ⟨m, hm⟩ := hcu.2 e0 hcn
        exact ⟨m, by rw [← h]; exact hm⟩
      · intro ans' h'
        rw [hpe] at h'
        exact absurd h' (by simp)
    | ok u =>
      have hNU : pids.any (fun pid =>
          match g.plugins.find? (fun p => p.id == pid) with
          | some p => p.ptype == "NotUsable"
          | none => false) = false := by
        cases hb : pids.any (fun pid =>
            match g.plugins.find? (fun p => p.id == pid) with
            | some p => p.ptype == "NotUsable"
            | none => false) with
        | false => rfl
        | true =>
          obtain ⟨e, he⟩ := hcu.1.mpr hb
          rw [hcn] at he
          exact absurd he (by simp)
      have hok : processGroup ans g
          = .ok (forceRequired g (if g.gtype == "SelectAll"
              then dset ans g.id (g.plugins.map (fun p => p.id)) else ans)) := by
        simp only [processGroup]
        rw [if_neg hn1, if_neg hn2, if_neg hn3, hdg]
        dsimp only
        rw [hcn]
      have hnu : notUsableSel ans g = false := by rw [hnuEq]; exact hNU
      obtain ⟨f1, f2, f3, f4, f5⟩ := postProcess_props ans _ g hval rfl
      refine ⟨?_, ?_, ?_⟩
      · constructor
        · rintro ⟨e, he⟩
          rw [hok] at he
          exact absurd he (by simp)
        · intro hor
          rcases hor with h | h
          · rw [hcv] at h; cases h
          · rw [hnu] at h; cases h
      · intro e he
        rw [hok] at he
        exact absurd he (by simp)
      · intro ans' h'
        rw [hok] at h'
        injection h' with h''
        subst h''
        exact ⟨f1, f2, f3, f4, f5⟩

theorem except_bind_ok {ε α β : Type} (a : α) (f : α → Except ε β) :
    ((Except.ok a : Except ε α) >>= f) = f a := rfl

theorem except_bind_error {ε α β : Type} (e : ε) (f : α → Except ε β) :
    ((Except.error e : Except ε α) >>= f) = .error e := rfl

theorem countViolation_congr (a b : Answer) (g : VGroup) (h : dget a g.id = dget b g.id) :
    countViolation a g = countViolation b g := by
  simp [countViolation, rawCount, h]

theorem notUsableSel_congr (a b : Answer) (g : VGroup) (h : dget a g.id = dget b g.id) :
    notUsableSel a g = notUsableSel b g := by
  simp [notUsableSel, h]

/-- Characterization of the whole validation loop over the step's
groups: it raises (always a ValueError) exactly when some group's raw
caller selection violates its count constraint or names a NotUsable
plugin — both judged on the *original* answer — and on success the
result is key-well-formed, agrees with the original answer outside the
group keys, stays within each group's plugin ids, and contains every
Required plugin id of every group. -/
theorem foldGroups_char :
    ∀ (gs : List VGroup) (ans : Answer),
      (dkeys ans).Nodup →
      (gs.map (fun g => g.id)).Nodup →
      (∀ g ∈ gs, ∀ pid ∈ (dget ans g.id).getD [], ∃ p ∈ g.plugins, p.id = pid) →
      ((∃ e, gs.foldlM processGroup ans = .error e) ↔
        ∃ g ∈ gs, countViolation ans g = true ∨ notUsableSel ans g = true) ∧
      (∀ e, gs.foldlM processGroup ans = .error e → ∃ m, e = .valueError m) ∧
      (∀ ans', gs.foldlM processGroup ans = .ok ans' →
        (dkeys ans').Nodup ∧
        (∀ k, (∀ g ∈ gs, g.id ≠ k) → dget ans' k = dget ans k) ∧
        (∀ k', k' ∈ dkeys ans' → k' ∈ dkeys ans ∨ ∃ g ∈ gs, g.id = k') ∧
        (∀ g ∈ gs,
          (∀ pid ∈ (dget ans' g.id).getD [], ∃ p ∈ g.plugins, p.id = pid) ∧
          (∀ p ∈ g.plugins, p.ptype = "Required" →
            ∃ pids, dget ans' g.id = some pids ∧ p.id ∈ pids))) := by
  intro gs
  induction gs with
  | nil =>
    intro ans hnd _ _
    refine ⟨by simp [List.foldlM_nil, pure, Except.pure], ?_, ?_⟩
    · intro e he
      exact absurd he (by simp [List.foldlM_nil, pure, Except.pure])
    · intro ans' h'
      rw [List.foldlM_nil] at h'
      have hae : ans = ans' := by simpa [pure, Except.pure] using h'
      subst hae
      exact ⟨hnd, fun k _ => rfl, fun k' hk' => Or.inl hk', by simp⟩
  | cons g gs' ih =>
    intro ans hnd hgid hval
    have hgid' : (∀ x ∈ gs', ¬ x.id = g.id) ∧ (gs'.map (fun g => g.id)).Nodup := by
      simpa using hgid
    have hg_not_tail : ∀ g' ∈ gs', g'.id ≠ g.id := fun g' hg' => hgid'.1 g' hg'
    have hvg : ∀ pid ∈ (dget ans g.id).getD [], ∃ p ∈ g.plugins, p.id = pid :=
      hval g (by simp)
    have hchar := processGroup_char ans g hvg
    rw [List.foldlM_cons]
    cases hpg : processGroup ans g with
    | error e =>
      rw [except_bind_error]
      refine ⟨?_, ?_, ?_⟩
      · exact ⟨fun _ => ⟨g, by simp, hchar.1.mp ⟨e, hpg⟩⟩, fun _ => ⟨e, rfl⟩⟩
      · intro e' he'
        injection he' with h
        obtain ⟨m, hm⟩ := hchar.2.1 e hpg
        exact ⟨m, by rw [← h]; exact hm⟩
      · intro ans' h'
        exact absurd h' (by simp)
    | ok a1 =>
      rw [except_bind_ok]
      obtain ⟨pf1, pf2, pf3, pf4, pf5⟩ := hchar.2.2 a1 hpg
      have hnd1 : (dkeys a1).Nodup := pf2 hnd
      have hdg_eq : ∀ g' ∈ gs', dget a1 g'.id = dget ans g'.id :=
        fun g' hg' => pf1 g'.id (hg_not_tail g' hg')
      have hval1 : ∀ g' ∈ gs', ∀ pid ∈ (dget a1 g'.id).getD [], ∃ p ∈ g'.plugins, p.id = pid := by
        intro g' hg' pid hpid
        rw [hdg_eq g' hg'] at hpid
        exact hval g' (by simp [hg']) pid hpid
      have IH := ih a1 hnd1 hgid'.2 hval1
      have hviol_congr : ∀ g' ∈ gs',
          ((countViolation a1 g' = true ∨ notUsableSel a1 g' = true) ↔
            (countViolation ans g' = true ∨ notUsableSel ans g' = true)) := by
        intro g' hg'
        rw [countViolation_congr a1 ans g' (hdg_eq g' hg'),
            notUsableSel_congr a1 ans g' (hdg_eq g' hg')]
      refine ⟨?_, ?_, ?_⟩
      · constructor
        · intro hex
          obtain ⟨g', hg', hv⟩ := IH.1.mp hex
          exact ⟨g', by simp [hg'], (hviol_congr g' hg').mp hv⟩
        · rintro ⟨g'', hg'', hv⟩
          rcases List.mem_cons.mp hg'' with heq | hmem
          · subst heq
            obtain ⟨e, he⟩ := hchar.1.mpr hv
            rw [hpg] at he
            exact absurd he (by simp)
          · exact IH.1.mpr ⟨g'', hmem, (hviol_congr g'' hmem).mpr hv⟩
      · exact IH.2.1
      · intro ans' h'
        obtain ⟨ind, iother, icov, iper⟩ := IH.2.2 ans' h'
        refine ⟨ind, ?_, ?_, ?_⟩
        · intro k hk
          rw [iother k (fun g' hg' => hk g' (by simp [hg']))]
          exact pf1 k (Ne.symm (hk g (by simp)))
        · intro k' hk'
          rcases icov k' hk' with h'' | ⟨g', hg', he⟩
          · rcases pf3 k' h'' with h3 | h3
            · exact Or.inl h3
            · exact Or.inr ⟨g, by simp, h3.symm⟩
          · exact Or.inr ⟨g', by simp [hg'], he⟩
        · intro g'' hg''
          rcases List.mem_cons.mp hg'' with heq | hmem
          · subst heq
            have hsame : dget ans' g''.id = dget a1 g''.id :=
              iother g''.id (fun g' hg' => hg_not_tail g' hg')
            constructor
            · intro pid hpid
              rw [hsame] at hpid
              exact pf4 pid hpid
            · intro p hp hreq
              obtain ⟨pids, h1, h2⟩ := pf5 p hp hreq
              exact ⟨pids, by rw [hsame]; exact h1, h2⟩
          · exact iper g'' hmem

theorem find_group_self :
    ∀ (groups : List VGroup), (groups.map (fun g => g.id)).Nodup →
      ∀ g ∈ groups, groups.find? (fun g' => g'.id == g.id) = some g := by
  intro groups
  induction groups with
  | nil => intro _ g hg; cases hg
  | cons h t ih =>
    intro hnd g hg
    have hnd' : (∀ x ∈ t, ¬ x.id = h.id) ∧ (t.map (fun g => g.id)).Nodup := by
      simpa using hnd
    rcases List.mem_cons.mp hg with heq | hmem
    · subst heq
      simp [List.find?]
    · have hne : ¬ (h.id == g.id) = true := by
        simpa using fun e => (hnd'.1 g hmem) e.symm
      simp only [List.find?, hne]
      exact ih hnd'.2 g hmem

theorem normalizeEntry_ok (step : StepView)
    (hnd : (step.groups.map (fun g => g.id)).Nodup)
    (g : VGroup) (hg : g ∈ step.groups) (pids : List String)
    (hval : ∀ pid ∈ pids, ∃ p ∈ g.plugins, p.id = pid) :
    normalizeEntry step g.id pids
      = .ok (g.id, (g.plugins.filter (fun p => pids.contains p.id)).map (fun p => p.id)) := by
  have hfind := find_group_self step.groups hnd g hg
  have hall : pids.all (fun pid => g.plugins.any (fun p => p.id == pid)) = true := by
    rw [List.all_eq_true]
    intro pid hpid
    obtain ⟨p, hp, hpe⟩ := hval pid hpid
    exact List.any_eq_true.mpr ⟨p, hp, by simp [hpe]⟩
  simp only [normalizeEntry, hfind, hall, if_true]

theorem normEntries_char (step : StepView) :
    ∀ (l : List (String × List String)),
      (∀ kv ∈ l, ∃ w, normalizeEntry step kv.1 kv.2 = .ok (kv.1, w)) →
      ∃ a2, normEntries step l = .ok a2 ∧
        dkeys a2 = dkeys l ∧
        (∀ kv ∈ l, ∀ w, normalizeEntry step kv.1 kv.2 = .ok (kv.1, w) → (kv.1, w) ∈ a2) := by
  intro l
  induction l with
  | nil =>
    intro _
    exact ⟨[], rfl, rfl, by simp⟩
  | cons kv rest ih =>
    intro hall
    obtain ⟨w, hw⟩ := hall kv (by simp)
    obtain ⟨a2, ha2, hkeys, hmem⟩ := ih (fun kv' hkv' => hall kv' (by simp [hkv']))
    refine ⟨(kv.1, w) :: a2, ?_, ?_, ?_⟩
    · simp only [normEntries, hw, ha2]
    · simp only [dkeys, List.map_cons]
      rw [show a2.map (fun kv => kv.1) = dkeys rest from hkeys]
      rfl
    · intro kv' hkv' w' hw'
      rcases List.mem_cons.mp hkv' with heq | hmem'
      · subst heq
        rw [hw] at hw'
        have hww : w = w' := by
          have := (Except.ok.injEq _ _).mp hw'
          exact ((Prod.mk.injEq _ _ _ _).mp this).2
        subst hww
        exact List.mem_cons_self _ _
      · exact List.mem_cons_of_mem _ (hmem kv' hmem' w' hw')

theorem dget_filterMap_none (a2 : Answer) (k : String) :
    ∀ (groups : List VGroup), (∀ g' ∈ groups, g'.id ≠ k) →
      dget (groups.filterMap (fun g' => (dget a2 g'.id).map (fun pids => (g'.id, pids)))) k
        = none := by
  intro groups
  induction groups with
  | nil => intro _; rfl
  | cons h t ih =>
    intro hne
    simp only [List.filterMap_cons]
    cases hd : dget a2 h.id with
    | none => exact ih (fun g' hg' => hne g' (by simp [hg']))
    | some w =>
      have hb : ¬ (h.id == k) = true := by simpa using hne h (by simp)
      simp only [Option.map_some', dget, hb, Bool.false_eq_true, if_false]
      exact ih (fun g' hg' => hne g' (by simp [hg']))

theorem dget_filterMap_groups (a2 : Answer) :
    ∀ (groups : List VGroup), (groups.map (fun g => g.id)).Nodup →
      ∀ g ∈ groups,
        dget (groups.filterMap (fun g' => (dget a2 g'.id).map (fun pids => (g'.id, pids)))) g.id
          = dget a2 g.id := by
  intro groups
  induction groups with
  | nil => intro _ g hg; cases hg
  | cons h t ih =>
    intro hnd g hg
    have hnd' : (∀ x ∈ t, ¬ x.id = h.id) ∧ (t.map (fun g => g.id)).Nodup := by
      simpa using hnd
    rcases List.mem_cons.mp hg with heq | hmem
    · subst heq
      simp only [List.filterMap_cons]
      cases hd : dget a2 g.id with
      | none =>
        exact dget_filterMap_none a2 g.id t (fun g' hg' he => (hnd'.1 g' hg') he)
      | some w =>
        simp [dget]
    · have hne : ¬ (h.id == g.id) = true := by
        simpa using fun e => (hnd'.1 g hmem) e.symm
      simp only [List.filterMap_cons]
      cases hd : dget a2 h.id with
      | none => exact ih hnd'.2 g hmem
      | some w =>
        simp only [Option.map_some', dget, hne, Bool.false_eq_true, if_false]
        exact ih hnd'.2 g hmem

theorem collectFiles_cons (fl : Option (List FileItem)) (maps : List FileLayer) :
    ∃ fd, collectFiles fl maps = fd :: maps :=
  ⟨_, rfl⟩

theorem baseFileMaps_length (conf : ModuleConf) : (baseFileMaps conf).length = 2 := by
  obtain ⟨fd, hfd⟩ := collectFiles_cons conf.requiredInstallFiles [[]]
  simp [baseFileMaps, hfd]

theorem runConditional_extends (dest : Option (String → Bool)) (gv : Option String)
    (flagMaps : List FlagLayer) :
    ∀ (pats : List CondPattern) (maps res : List FileLayer),
      runConditional dest gv flagMaps maps pats = .ok res → ∃ add, res = add ++ maps := by
  intro pats
  induction pats with
  | nil =>
    intro maps res h
    simp only [runConditional, Except.ok.injEq] at h
    exact ⟨[], by simp [h]⟩
  | cons p ps ih =>
    intro maps res h
    simp only [runConditional] at h
    cases hd : assertDependencies (factsOf flagMaps dest gv) p.deps with
    | ok u =>
      rw [hd] at h
      obtain ⟨fd, hfd⟩ := collectFiles_cons p.files maps
      rw [hfd] at h
      obtain ⟨add, ha⟩ := ih (fd :: maps) res h
      exact ⟨add ++ [fd], by simp [ha]⟩
    | error e =>
      rw [hd] at h
      cases e with
      | missingDependency fi => exact ih maps res h
      | valueError m => exact absurd h (by simp)
      | typeError => exact absurd h (by simp)
      | unboundLocalError => exact absurd h (by simp)
      | stopIteration => exact absurd h (by simp)
      | keyError => exact absurd h (by simp)

/-- Shape of a successful pull: it only happens while awaiting a step,
never touches the flag store, and either suspends at a step leaving the
file store alone or finishes after stacking the conditional-install
layers on top of it. -/
theorem advance_shape (conf : ModuleConf) (dest : Option (String → Bool)) (gv : Option String)
    (s s' : EngineState) (h : advanceEngine conf dest gv s = .ok s') :
    s.phase = .awaitingStep ∧ s'.flagMaps = s.flagMaps ∧
    ((s'.phase ≠ .finished ∧ s'.fileMaps = s.fileMaps) ∨
     (s'.phase = .finished ∧ ∃ add, s'.fileMaps = add ++ s.fileMaps)) := by
  unfold advanceEngine at h
  cases hph : s.phase with
  | awaitingStep =>
    rw [hph] at h
    dsimp only at h
    refine ⟨rfl, ?_⟩
    cases hfind : findVisibleStep dest gv s.flagMaps (stepListOf conf) (s.index + 1).toNat with
    | error e => rw [hfind] at h; exact absurd h (by simp)
    | ok found =>
      rw [hfind] at h
      cases found with
      | none =>
        dsimp only at h
        cases hrc : runConditional dest gv s.flagMaps s.fileMaps
            (conf.conditionalFileInstalls.getD []) with
        | error e => rw [hrc] at h; exact absurd h (by simp)
        | ok maps =>
          rw [hrc] at h
          dsimp only at h
          simp only [Except.ok.injEq] at h
          subst h
          exact ⟨rfl, Or.inr ⟨rfl, runConditional_extends dest gv s.flagMaps _ _ _ hrc⟩⟩
      | some found' =>
        obtain ⟨j, st⟩ := found'
        dsimp only at h
        cases hb : buildStepView (factsOf s.flagMaps dest gv) st s.counter with
        | error e => rw [hb] at h; exact absurd h (by simp)
        | ok trip =>
          obtain ⟨sv, idd, ctr⟩ := trip
          rw [hb] at h
          dsimp only at h
          simp only [Except.ok.injEq] at h
          subst h
          exact ⟨rfl, Or.inl ⟨by simp, rfl⟩⟩
  | awaitingAnswer sv idd => rw [hph] at h; exact absurd h (by simp)
  | finished => rw [hph] at h; exact absurd h (by simp)

/-- Shape of a successful submission: it only happens while awaiting an
answer, and either pushes one flag layer and one file layer (forward) or
pops at most one of each, guarded by the base-layer counts (backward). -/
theorem submit_shape (conf : ModuleConf) (dest : Option (String → Bool)) (gv : Option String)
    (s s' : EngineState) (ans : Dict PyVal) (h : submitEngine conf dest gv s ans = .ok s') :
    (∃ sv idd, s.phase = .awaitingAnswer sv idd) ∧ s'.phase = .awaitingStep ∧
    ((∃ fl fi, s'.flagMaps = fl :: s.flagMaps ∧ s'.fileMaps = fi :: s.fileMaps) ∨
     (s'.flagMaps = (if 1 < s.flagMaps.length then s.flagMaps.tail else s.flagMaps) ∧
      s'.fileMaps = (if 2 < s.fileMaps.length then s.fileMaps.tail else s.fileMaps))) := by
  unfold submitEngine at h
  cases hph : s.phase with
  | awaitingStep => rw [hph] at h; exact absurd h (by simp)
  | finished => rw [hph] at h; exact absurd h (by simp)
  | awaitingAnswer sv idd =>
    rw [hph] at h
    dsimp only at h
    refine ⟨⟨sv, idd, rfl⟩, ?_⟩
    cases htr : truthy ((dget ans "previous_step").getD (.pyBool false)) with
    | true =>
      rw [htr] at h
      simp only [if_true, Except.ok.injEq] at h
      subst h
      exact ⟨rfl, Or.inr ⟨rfl, rfl⟩⟩
    | false =>
      rw [htr] at h
      simp only [Bool.false_eq_true, if_false] at h
      cases hta : toAnswer (dremove ans "previous_step") with
      | error e => rw [hta] at h; exact absurd h (by simp)
      | ok rawAns =>
        rw [hta] at h
        dsimp only at h
        cases hva : validateAnswer sv rawAns with
        | error e => rw [hva] at h; exact absurd h (by simp)
        | ok norm =>
          rw [hva] at h
          dsimp only at h
          cases hcs : collectStep idd norm with
          | error e => rw [hcs] at h; exact absurd h (by simp)
          | ok chains =>
            obtain ⟨fileChain, flagChain⟩ := chains
            rw [hcs] at h
            dsimp only at h
            simp only [Except.ok.injEq] at h
            subst h
            exact ⟨rfl, Or.inl ⟨_, _, rfl, rfl⟩⟩

/-- Shape of priming: the freshly initialized stores. -/
theorem prime_shape (conf : ModuleConf) (dest : Option (String → Bool)) (gv : Option String)
    (s : EngineState) (h : primeEngine conf dest gv = .ok s) :
    s = { flagMaps := [[]], fileMaps := baseFileMaps conf, index := -1, prevIndex := [0],
          counter := 0, phase := .awaitingStep } := by
  unfold primeEngine at h
  cases hd : assertDependencies (factsOf [[]] dest gv) conf.moduleDependencies with
  | error e => rw [hd] at h; exact absurd h (by simp)
  | ok u =>
    rw [hd] at h
    simp only [Except.ok.injEq] at h
    exact h.symm

/-- Every reachable engine state satisfies the store-shape invariant. -/
theorem reachable_inv (conf : ModuleConf) (dest : Option (String → Bool)) (gv : Option String) :
    ∀ s : EngineState, Reachable conf dest gv s → EngineInv conf s := by
  intro s h
  induction h with
  | prime hp =>
    rw [prime_shape conf dest gv _ hp]
    exact ⟨[], [], rfl, rfl, fun _ => rfl⟩
  | @adv s1 s2 hr hstep ih =>
    obtain ⟨pre, pre', hfl, hfi, hlock⟩ := ih
    obtain ⟨hph, hflag, hfile⟩ := advance_shape conf dest gv _ _ hstep
    rcases hfile with ⟨hnf, hsame⟩ | ⟨hfin, add, hadd⟩
    · exact ⟨pre, pre', by rw [hflag, hfl], by rw [hsame, hfi],
        fun _ => hlock (by rw [hph]; simp)⟩
    · exact ⟨pre, add ++ pre', by rw [hflag, hfl], by rw [hadd, hfi, List.append_assoc],
        fun hnfin => absurd hfin hnfin⟩
  | @sub s1 s2 ans hr hstep ih =>
    obtain ⟨pre, pre', hfl, hfi, hlock⟩ := ih
    obtain ⟨⟨sv, idd, hph⟩, hph', hstores⟩ := submit_shape conf dest gv _ _ _ hstep
    have hlk : pre.length = pre'.length := hlock (by rw [hph]; simp)
    rcases hstores with ⟨fl, fi, hfl', hfi'⟩ | ⟨hfl', hfi'⟩
    · exact ⟨fl :: pre, fi :: pre', by rw [hfl', hfl]; rfl, by rw [hfi', hfi]; rfl,
        fun _ => by simp [hlk]⟩
    · cases pre with
      | nil =>
        have hpre' : pre' = [] := by
          cases pre' with
          | nil => rfl
          | cons q qr => exact absurd hlk (by simp)
        subst hpre'
        refine ⟨[], [], ?_, ?_, fun _ => rfl⟩
        · rw [hfl', hfl]; simp
        · rw [hfi', hfi]
          have hb2 : ¬ 2 < ([] ++ baseFileMaps conf : List FileLayer).length := by
            simp [baseFileMaps_length conf]
          rw [if_neg hb2]
      | cons p pr =>
        cases pre' with
        | nil => exact absurd hlk (by simp)
        | cons q qr =>
          refine ⟨pr, qr, ?_, ?_, fun _ => by simpa using hlk⟩
          · have hc1 : 1 < s1.flagMaps.length := by
              rw [hfl]; simp
            rw [hfl', if_pos hc1, hfl]; simp
          · have hc2 : 2 < s1.fileMaps.length := by
              rw [hfi]
              simp only [List.length_append, List.length_cons, baseFileMaps_length conf]
              omega
            rw [hfi', if_pos hc2, hfi]; simp

/-! ## Claim theorems -/

/-- C1: corrected.  The claim predicts a destination-keyed terminal map,
`{ "data/b.txt": "b.txt" }`, for the one-step SelectExactlyOne scenario
with B selected.  The run actually produces the source-keyed map
`{ "b.txt": "data/b.txt" }`: the destination `data/b.txt` is not a key of
the exposed map at all, so the map does not send each destination to its
source. -/
theorem C1_counterexample :
    scRun = .ok [("b.txt", "data/b.txt")] ∧
    dget [("b.txt", "data/b.txt")] "data/b.txt" = none ∧
    dget [("b.txt", "data/b.txt")] "b.txt" = some "data/b.txt" :=
  ⟨rfl, rfl, rfl⟩

/-- C1 (amended): the engine's terminal file mapping is keyed by source
with destination as value; for the scenario configuration, answering with
B selected yields the final map `{ "b.txt": "data/b.txt" }`, and no entry
derived from A (`a.txt` appears neither as a key nor as a value). -/
theorem C1_amended_theorem :
    scRun = .ok [("b.txt", "data/b.txt")] ∧
    dget [("b.txt", "data/b.txt")] "a.txt" = none ∧
    [("b.txt", "data/b.txt")].all (fun kv => kv.1 != "a.txt" && kv.2 != "data/a.txt") = true :=
  ⟨rfl, rfl, rfl⟩

/-- C2: corrected.  The flattened view orders priority buckets by
*string* comparison of the priority keys, not numeric comparison, and it
merges buckets per *source* (the maps are source-keyed).  With buckets of
priorities "10" and "5" holding the same source, the "5" bucket wins
under either push order (the claim predicts the numerically higher 10);
and two buckets assigning the same destination under different sources
are both kept, so no same-destination override happens at all. -/
theorem C2_counterexample :
    collectedFiles [[("10", [("s", "dHi")])], [("5", [("s", "dLo")])], []] = [("s", "dLo")] ∧
    collectedFiles [[("5", [("s", "dLo")])], [("10", [("s", "dHi")])], []] = [("s", "dLo")] ∧
    dget (collectedFiles [[("10", [("s", "dHi")])], [("5", [("s", "dLo")])], []]) "s"
      ≠ some "dHi" ∧
    collectedFiles [[("10", [("s1", "d")])], [("5", [("s2", "d")])], []]
      = [("s1", "d"), ("s2", "d")] :=
  ⟨rfl, rfl, by decide, rfl⟩

/-- C2 (amended): for any two priority buckets holding the same *source*,
the flattened view keeps the entry of the bucket whose priority key is
the lexicographically greater string, regardless of the order in which
the two layers were pushed.  (This agrees with numeric priority for
single-digit keys such as 5 versus 1, but not for 10 versus 5.) -/
theorem C2_amended_theorem (p1 p2 s d1 d2 : String) (h : strLt p2 p1 = true) :
    collectedFiles [[(p1, [(s, d1)])], [(p2, [(s, d2)])], []] = [(s, d1)] ∧
    collectedFiles [[(p2, [(s, d2)])], [(p1, [(s, d1)])], []] = [(s, d1)] := by
  have hlt : cmpChars p2.data p1.data = .lt := by
    simp only [strLt, String.toList] at h
    cases e : cmpChars p2.data p1.data <;> rw [e] at h
    all_goals exact absurd h (by decide)
  have hgt : cmpChars p1.data p2.data = .gt := by
    rw [cmpChars_swap, hlt]; rfl
  have hne : p1 ≠ p2 := by
    intro e; subst e; rw [cmpChars_self] at hlt; cases hlt
  have hbeq1 : (p1 == p2) = false := by simp [hne]
  have hbeq2 : (p2 == p1) = false := by simp [Ne.symm hne]
  have hgg : (Ordering.gt == Ordering.gt) = true := by decide
  have hlg : (Ordering.lt == Ordering.gt) = false := by decide
  constructor <;>
    simp [collectedFiles, chainKeys, chainFlatten, chainGet, nestedGet, dget, dset,
          stableSortBy, insertSortedBy, strLe, strLt, String.toList, hbeq1, hbeq2,
          hgt, hlt, hgg, hlg, hne, Ne.symm hne, Ordering.swap, bne]

/-- C2 witness: instantiating the amended theorem at priorities "5" and
"10" (where "10" is the lexicographically smaller string). -/
theorem C2_amended_witness :
    strLt "10" "5" = true ∧
    collectedFiles [[("5", [("s", "d5")])], [("10", [("s", "d10")])], []] = [("s", "d5")] :=
  by
  have h := C2_amended_theorem "5" "10" "s" "d5" "d10" (by decide)
  exact ⟨by decide, h.1⟩

/-- C3: corrected.  For an Or composite: when every child completes
normally, the composite succeeds iff at least one child is satisfied (a
nested composite that succeeds counts as one satisfied child), and when
all children fail the raised MissingDependency carries the failure data
of the last child in document order.  However, a *failing* nested
composite child does not contribute a mere fail outcome: its exception
propagates straight through the Or, aborting it even when a sibling is
satisfied. -/
theorem C3_theorem :
    (∀ (facts : Facts) (m : Check → Option FailureInfo) (cs : List Check),
      (∀ x ∈ cs, checkMissed facts x = .ok (m x)) →
      (assertDependencies facts (some ⟨some "Or", cs⟩) = .ok () ↔ ∃ x ∈ cs, m x = none)) ∧
    (∀ (facts : Facts) (m : Check → Option FailureInfo) (pre : List Check) (c : Check)
        (fi : FailureInfo),
      (∀ x ∈ pre ++ [c], checkMissed facts x = .ok (m x)) →
      (∀ x ∈ pre ++ [c], (m x).isSome) →
      m c = some fi →
      (fi.ftype = "Version" ∨ fi.ftype = "File" ∨ fi.ftype = "Flag") →
      assertDependencies facts (some ⟨some "Or", pre ++ [c]⟩)
        = .error (.missingDependency fi)) ∧
    (∀ (facts : Facts) (pre : List Check) (c : Check) (post : List Check) (e : PyError),
      (∀ x ∈ pre, ∃ mx, checkMissed facts x = .ok mx) →
      checkMissed facts c = .error e →
      assertDependencies facts (some ⟨some "Or", pre ++ c :: post⟩) = .error e) := by
  refine ⟨?_, ?_, ?_⟩
  · intro facts m cs h
    show evalDeps facts "Or" cs.length cs 0 none = .ok () ↔ ∃ x ∈ cs, m x = none
    rw [evalOr_char facts m cs 0 none cs.length h]
    by_cases hall : ∀ x ∈ cs, (m x).isSome
    · have hlen : (cs.filter (fun x => (m x).isSome)).length = cs.length :=
        (filter_length_eq_iff _ cs).mpr hall
      rw [if_pos (by simp [hlen])]
      constructor
      · intro hok
        exfalso
        rcases hfold : cs.foldl (fun _ x => some (m x)) none with _ | mfi
        · rw [hfold] at hok; exact Except.noConfusion hok
        · rcases mfi with _ | fi
          · rw [hfold] at hok; exact Except.noConfusion hok
          · rw [hfold] at hok; exact Except.noConfusion hok
      · rintro ⟨x, hx, hmx⟩
        exact absurd (hall x hx) (by simp [hmx])
    · have hlen : (cs.filter (fun x => (m x).isSome)).length ≠ cs.length :=
        fun e => hall ((filter_length_eq_iff _ cs).mp e)
      rw [if_neg (by simpa using hlen)]
      constructor
      · intro _
        push_neg at hall
        obtain ⟨x, hx, hnx⟩ := hall
        exact ⟨x, hx, Option.not_isSome_iff_eq_none.mp (by simpa using hnx)⟩
      · intro _; rfl
  · intro facts m pre c fi h hsome hmc hty
    show evalDeps facts "Or" (pre ++ [c]).length (pre ++ [c]) 0 none = _
    rw [evalOr_char facts m (pre ++ [c]) 0 none (pre ++ [c]).length h]
    have hlen : ((pre ++ [c]).filter (fun x => (m x).isSome)).length = (pre ++ [c]).length :=
      (filter_length_eq_iff _ _).mpr hsome
    rw [if_pos (by simp only [Nat.zero_add, beq_iff_eq]; exact hlen)]
    rw [List.foldl_append]
    have hrm : raiseMissing fi = .missingDependency fi := by
      rcases hty with h' | h' | h' <;> simp [raiseMissing, h']
    simp [hmc, hrm]
  · intro facts pre c post e hpre hc
    show evalDeps facts "Or" (pre ++ c :: post).length (pre ++ c :: post) 0 none = .error e
    exact evalOr_skip_pass facts c post e hc pre hpre (pre ++ c :: post).length 0 none

/-- C3 counterexample: against the claim as stated, a failing nested
composite child *does* make the Or fail by itself.  The second child is
satisfied (`flag f == "yes"` holds), yet the composite raises the nested
child's failure. -/
theorem C3_counterexample :
    assertDependencies flagFFacts
        (some ⟨some "Or",
          [.dependencies none [.flagDependency "g" "yes"], .flagDependency "f" "yes"]⟩)
      = .error (.missingDependency ⟨"Flag", "yes", ""⟩) ∧
    checkMissed flagFFacts (.flagDependency "f" "yes") = .ok none := by
  constructor
  · simp [assertDependencies, evalDeps, checkMissed, raiseMissing, flagFFacts]
  · simp [checkMissed, flagFFacts]

/-- C3 witness: the Or success characterization applied to a singleton
satisfied flag check. -/
theorem C3_witness :
    checkMissed flagFFacts (.flagDependency "f" "yes") = .ok none ∧
    assertDependencies flagFFacts (some ⟨some "Or", [.flagDependency "f" "yes"]⟩) = .ok () := by
  have hf : checkMissed flagFFacts (.flagDependency "f" "yes") = .ok none := by
    simp [checkMissed, flagFFacts]
  have hh : ∀ x ∈ [Check.flagDependency "f" "yes"],
      checkMissed flagFFacts x = .ok ((fun _ => (none : Option FailureInfo)) x) := by
    intro x hx
    simp only [List.mem_singleton] at hx
    subst hx
    exact hf
  exact ⟨hf, (C3_theorem.1 flagFFacts (fun _ => none) _ hh).mpr
    ⟨Check.flagDependency "f" "yes", by simp, rfl⟩⟩

/-- C4: confirmed.  For an And composite, evaluation walks the children
in document order and raises the first unsatisfied child's failure
immediately; the result does not depend on anything after that child
(short-circuit). -/
theorem C4_theorem (facts : Facts) (pre : List Check) (c : Check) (post post' : List Check)
    (fi : FailureInfo)
    (hpre : ∀ x ∈ pre, checkMissed facts x = .ok none)
    (hc : checkMissed facts c = .ok (some fi))
    (hty : fi.ftype = "Version" ∨ fi.ftype = "File" ∨ fi.ftype = "Flag") :
    assertDependencies facts (some ⟨some "And", pre ++ c :: post⟩)
      = .error (.missingDependency fi) ∧
    assertDependencies facts (some ⟨some "And", pre ++ c :: post⟩)
      = assertDependencies facts (some ⟨some "And", pre ++ c :: post'⟩) := by
  have h1 := evalAnd_first_fail facts c fi hc pre hpre (pre ++ c :: post).length 0 none post
  have h2 := evalAnd_first_fail facts c fi hc pre hpre (pre ++ c :: post').length 0 none post'
  have hrm : raiseMissing fi = .missingDependency fi := by
    rcases hty with h' | h' | h' <;> simp [raiseMissing, h']
  constructor
  · show evalDeps facts "And" (pre ++ c :: post).length (pre ++ c :: post) 0 none = _
    rw [h1, hrm]
  · show evalDeps facts "And" (pre ++ c :: post).length (pre ++ c :: post) 0 none
        = evalDeps facts "And" (pre ++ c :: post').length (pre ++ c :: post') 0 none
    rw [h1, h2]

/-- C4 witness: a passed check, then a failing flag check, then a game
check that is never evaluated; dropping the trailing check leaves the
result unchanged. -/
theorem C4_witness :
    checkMissed flagFFacts (.flagDependency "f" "yes") = .ok none ∧
    checkMissed flagFFacts (.flagDependency "g" "no") = .ok (some ⟨"Flag", "no", ""⟩) ∧
    assertDependencies flagFFacts
        (some ⟨some "And",
          [.flagDependency "f" "yes", .flagDependency "g" "no", .gameDependency "9"]⟩)
      = .error (.missingDependency ⟨"Flag", "no", ""⟩) ∧
    assertDependencies flagFFacts
        (some ⟨some "And",
          [.flagDependency "f" "yes", .flagDependency "g" "no", .gameDependency "9"]⟩)
      = assertDependencies flagFFacts
        (some ⟨some "And", [.flagDependency "f" "yes", .flagDependency "g" "no"]⟩) := by
  have hf : checkMissed flagFFacts (.flagDependency "f" "yes") = .ok none := by
    simp [checkMissed, flagFFacts]
  have hg : checkMissed flagFFacts (.flagDependency "g" "no")
      = .ok (some ⟨"Flag", "no", ""⟩) := by
    simp [checkMissed, flagFFacts]
  have h := C4_theorem flagFFacts [.flagDependency "f" "yes"] (.flagDependency "g" "no")
      [.gameDependency "9"] [] ⟨"Flag", "no", ""⟩
      (by intro x hx; simp only [List.mem_singleton] at hx; subst hx; exact hf)
      hg (Or.inr (Or.inr rfl))
  exact ⟨hf, hg, h.1, h.2⟩

/-- C5: confirmed.  For a well-formed answer (unique keys naming step
groups, selected ids naming group plugins), validation raises a
ValueError exactly when some group's caller-selected id count violates
its kind or the caller selected a NotUsable plugin — both judged on the
caller's raw selection, before Required plugins are forced in — and on
success every Required plugin id appears in the normalized answer, even
when the caller omitted it and even if the forced addition pushes an
exactly-one or at-most-one group past its count. -/
theorem C5_theorem (step : StepView) (ans : Answer)
    (hnd : (dkeys ans).Nodup)
    (hgid : (step.groups.map (fun g => g.id)).Nodup)
    (hcov : ∀ kv ∈ ans, ∃ g ∈ step.groups, g.id = kv.1)
    (hval : ∀ g ∈ step.groups, ∀ pid ∈ (dget ans g.id).getD [], ∃ p ∈ g.plugins, p.id = pid) :
    ((∃ m, validateAnswer step ans = .error (.valueError m)) ↔
      ∃ g ∈ step.groups, countViolation ans g = true ∨ notUsableSel ans g = true) ∧
    (∀ norm, validateAnswer step ans = .ok norm →
      ∀ g ∈ step.groups, ∀ p ∈ g.plugins, p.ptype = "Required" →
        ∃ pids, dget norm g.id = some pids ∧ p.id ∈ pids) := by
  have hfold := foldGroups_char step.groups ans hnd hgid hval
  cases hf : step.groups.foldlM processGroup ans with
  | error e =>
    obtain ⟨m, hm⟩ := hfold.2.1 e hf
    subst hm
    have hva : validateAnswer step ans = .error (.valueError m) := by
      simp only [validateAnswer, hf]
    refine ⟨⟨fun _ => hfold.1.mp ⟨_, hf⟩, fun _ => ⟨m, hva⟩⟩, ?_⟩
    intro norm hnorm
    rw [hva] at hnorm
    exact absurd hnorm (by simp)
  | ok a1 =>
    obtain ⟨ind, iother, icov, iper⟩ := hfold.2.2 a1 hf
    have hnorm_all : ∀ kv ∈ a1, ∃ w, normalizeEntry step kv.1 kv.2 = .ok (kv.1, w) := by
      intro kv hkv
      have hkey : ∃ g ∈ step.groups, g.id = kv.1 := by
        have hmem : kv.1 ∈ dkeys a1 := List.mem_map.mpr ⟨kv, hkv, rfl⟩
        rcases icov kv.1 hmem with h' | h'
        · obtain ⟨kv0, hkv0, he⟩ := List.mem_map.mp h'
          obtain ⟨g, hg, hge⟩ := hcov kv0 hkv0
          exact ⟨g, hg, by rw [hge, he]⟩
        · exact h'
      obtain ⟨g, hg, hge⟩ := hkey
      have hdga : dget a1 kv.1 = some kv.2 := dget_of_mem_nodup a1 kv hkv ind
      have hvalid : ∀ pid ∈ kv.2, ∃ p ∈ g.plugins, p.id = pid := by
        intro pid hpid
        refine (iper g hg).1 pid ?_
        rw [hge, hdga]
        simpa using hpid
      have hne := normalizeEntry_ok step hgid g hg kv.2 hvalid
      rw [hge] at hne
      exact ⟨_, hne⟩
    obtain ⟨a2, ha2, hkeys2, hmem2⟩ := normEntries_char step a1 hnorm_all
    have hva : validateAnswer step ans
        = .ok (step.groups.filterMap (fun g => (dget a2 g.id).map (fun pids => (g.id, pids)))) := by
      simp only [validateAnswer, hf, ha2]
    refine ⟨?_, ?_⟩
    · constructor
      · rintro ⟨m, hm⟩
        rw [hva] at hm
        exact absurd hm (by simp)
      · intro hex
        obtain ⟨e, he⟩ := hfold.1.mpr hex
        rw [hf] at he
        exact absurd he (by simp)
    · intro norm hnorm
      rw [hva] at hnorm
      injection hnorm with hn
      intro g hg p hp hreq
      obtain ⟨pids, h1, h2⟩ := (iper g hg).2 p hp hreq
      have hmema1 : (g.id, pids) ∈ a1 := dget_some_mem a1 g.id pids h1
      have hvalid : ∀ pid ∈ pids, ∃ q ∈ g.plugins, q.id = pid := by
        intro pid hpid
        refine (iper g hg).1 pid ?_
        rw [h1]
        simpa using hpid
      have hne := normalizeEntry_ok step hgid g hg pids hvalid
      have hmema2 := hmem2 (g.id, pids) hmema1 _ hne
      have hnd2 : (dkeys a2).Nodup := by rw [hkeys2]; exact ind
      have hdg2 : dget a2 g.id
          = some ((g.plugins.filter (fun q => pids.contains q.id)).map (fun q => q.id)) :=
        dget_of_mem_nodup a2 _ hmema2 hnd2
      rw [← hn, dget_filterMap_groups a2 step.groups hgid g hg, hdg2]
      refine ⟨_, rfl, ?_⟩
      exact List.mem_map.mpr ⟨p, List.mem_filter.mpr ⟨hp, by simpa using h2⟩, rfl⟩

/-- C5 witness: selecting only the Optional plugin of an exactly-one
group passes validation, and the Required plugin is forced into the
normalized answer, making the group hold two ids. -/
theorem C5_witness :
    validateAnswer c5Step c5Ans = .ok [("g1", ["p1", "p2"])] ∧
    ∃ pids, dget [("g1", ["p1", "p2"])] "g1" = some pids ∧ "p2" ∈ pids := by
  have h := C5_theorem c5Step c5Ans (by decide) (by decide) (by decide) (by decide)
  refine ⟨by rfl, ?_⟩
  exact h.2 [("g1", ["p1", "p2"])] (by rfl)
    ⟨"G", "SelectExactlyOne", "g1",
      [⟨"p1", "P1", "", "", "Optional"⟩, ⟨"p2", "P2", "", "", "Required"⟩]⟩
    (by simp [c5Step]) ⟨"p2", "P2", "", "", "Required"⟩ (by simp) rfl

/-- C6: confirmed.  In every reachable engine state the layered stores
are non-empty and keep their base layers (the initial flag layer; the
initial file layer plus the required-files layer): the stores decompose
as pushed step layers over those never-popped bases, in lockstep until
the run finishes.  A backward request while non-base layers exist pops
exactly one flag layer and one file layer; issued with only the base
layers present (in particular before any forward step) it leaves both
stores unchanged and only rewinds the step cursor. -/
theorem C6_theorem (conf : ModuleConf) (dest : Option (String → Bool)) (gv : Option String)
    (s : EngineState) (h : Reachable conf dest gv s) :
    EngineInv conf s ∧
    (∀ (sv : StepView) (idd : Dict PluginConf) (ans : Dict PyVal) (v : PyVal)
        (s' : EngineState),
      s.phase = .awaitingAnswer sv idd →
      dget ans "previous_step" = some v → truthy v = true →
      submitEngine conf dest gv s ans = .ok s' →
      s'.phase = .awaitingStep ∧
      (1 < s.flagMaps.length →
        s'.flagMaps = s.flagMaps.tail ∧ 2 < s.fileMaps.length ∧
        s'.fileMaps = s.fileMaps.tail) ∧
      (s.flagMaps.length = 1 →
        s'.flagMaps = s.flagMaps ∧ s'.fileMaps = s.fileMaps) ∧
      s'.index = ((s.prevIndex.getLast?).map (fun p => p - 1)).getD (-1)) := by
  have hinv := reachable_inv conf dest gv s h
  refine ⟨hinv, ?_⟩
  intro sv idd ans v s' hph h1 h2 hsub
  obtain ⟨pre, pre', hfl, hfi, hlock⟩ := hinv
  have hlk : pre.length = pre'.length := hlock (by rw [hph]; simp)
  unfold submitEngine at hsub
  rw [hph] at hsub
  dsimp only at hsub
  rw [h1] at hsub
  simp only [Option.getD_some] at hsub
  rw [if_pos h2] at hsub
  simp only [Except.ok.injEq] at hsub
  subst hsub
  refine ⟨rfl, ?_, ?_, ?_⟩
  · intro hgt
    have hc2 : 2 < s.fileMaps.length := by
      cases pre with
      | nil => rw [hfl] at hgt; simp at hgt
      | cons p pr =>
        cases pre' with
        | nil => exact absurd hlk (by simp)
        | cons q qr =>
          rw [hfi]
          simp only [List.length_append, List.length_cons, baseFileMaps_length conf]
          omega
    exact ⟨by simp [hgt], hc2, by simp [hc2]⟩
  · intro heq
    have hpre : pre = [] := by
      cases pre with
      | nil => rfl
      | cons p pr => rw [hfl] at heq; simp at heq
    have hpre' : pre' = [] := by
      cases pre' with
      | nil => rfl
      | cons q qr => rw [hpre] at hlk; exact absurd hlk (by simp)
    have hlen2 : ¬ 2 < s.fileMaps.length := by
      rw [hfi, hpre']
      simp [baseFileMaps_length conf]
    exact ⟨by simp [heq], by simp [hlen2]⟩
  · cases hgl : s.prevIndex.getLast? <;> simp [hgl]

/-- C6 witness: the scenario engine, suspended at its first step with
only base layers in the stores, receives a backward request: both stores
are unchanged and only the cursor rewinds. -/
theorem C6_witness :
    scS1.flagMaps.length = 1 ∧
    scS1.phase = .awaitingAnswer
      ⟨"Step", [⟨"G", "SelectExactlyOne", "uuid-0",
        [⟨"uuid-1", "A", "", "", "Optional"⟩, ⟨"uuid-2", "B", "", "", "Optional"⟩]⟩]⟩
      [("uuid-1", scA), ("uuid-2", scB)] ∧
    dget [("previous_step", PyVal.pyBool true)] "previous_step" = some (PyVal.pyBool true) ∧
    truthy (PyVal.pyBool true) = true ∧
    submitEngine scConf none none scS1 [("previous_step", PyVal.pyBool true)]
      = .ok { scS1 with index := -1, prevIndex := [], phase := .awaitingStep } ∧
    ({ scS1 with index := -1, prevIndex := [], phase := .awaitingStep } : EngineState).flagMaps
      = scS1.flagMaps ∧
    ({ scS1 with index := -1, prevIndex := [], phase := .awaitingStep } : EngineState).fileMaps
      = scS1.fileMaps ∧
    ({ scS1 with index := -1, prevIndex := [], phase := .awaitingStep } : EngineState).index
      = -1 := by
  have hreach : Reachable scConf none none scS1 :=
    Reachable.adv (Reachable.prime rfl) rfl
  have h := (C6_theorem scConf none none scS1 hreach).2
    ⟨"Step", [⟨"G", "SelectExactlyOne", "uuid-0",
      [⟨"uuid-1", "A", "", "", "Optional"⟩, ⟨"uuid-2", "B", "", "", "Optional"⟩]⟩]⟩
    [("uuid-1", scA), ("uuid-2", scB)]
    [("previous_step", PyVal.pyBool true)] (PyVal.pyBool true)
    { scS1 with index := -1, prevIndex := [], phase := .awaitingStep }
    rfl rfl rfl rfl
  exact ⟨rfl, rfl, rfl, rfl, rfl, (h.2.2.1 rfl).1, (h.2.2.1 rfl).2, rfl⟩

/-- C7: confirmed.  LooseVersion comparison is component-wise and
type-aware: "1.2" and "1.10" parse into numeric components and
`"1.2" < "1.10"` holds even though plain string order says the opposite;
numeric components compare numerically, alphabetic ones lexically, and a
proper prefix compares as less; a `gameDependency` of version "1.5"
against game version "1.4.2" raises the Version failure while "1.10"
against minimum "1.2" passes. -/
theorem C7_theorem :
    parseLoose "1.2" = [.num 1, .num 2] ∧
    parseLoose "1.10" = [.num 1, .num 10] ∧
    parseLoose "1.4.2" = [.num 1, .num 4, .num 2] ∧
    looseLt "1.2" "1.10" = true ∧
    looseLt "1.10" "1.2" = false ∧
    cmpChars "1.10".data "1.2".data = .lt ∧
    (∀ a b : Nat, cmpVComp (.num a) (.num b) = compare a b) ∧
    (∀ s t : List Char, cmpVComp (.str s) (.str t) = cmpChars s t) ∧
    (∀ (xs : List VComp) (y : VComp) (ys : List VComp), cmpVList xs (xs ++ y :: ys) = .lt) ∧
    assertDependencies { flags := fun _ => "", dest := none, gameVersion := some "1.4.2" }
        (some ⟨none, [.gameDependency "1.5"]⟩)
      = .error (.missingDependency ⟨"Version", "1.5", "1.4.2"⟩) ∧
    assertDependencies { flags := fun _ => "", dest := none, gameVersion := some "1.10" }
        (some ⟨none, [.gameDependency "1.2"]⟩)
      = .ok () := by
  refine ⟨by decide, by decide, by decide, by decide, by decide, by decide,
          fun a b => rfl, fun s t => rfl, cmpVList_prefix, ?_, ?_⟩
  · have h1 : looseLt "1.4.2" "1.5" = true := by decide
    simp [assertDependencies, evalDeps, checkMissed, raiseMissing, h1]
  · have h2 : looseLt "1.10" "1.2" = false := by decide
    simp [assertDependencies, evalDeps, checkMissed, h2]

/-- C10: corrected.  An Or composite with an empty child list always
raises, and not a MissingDependency — but the mechanism claimed (the
failure constructed from an empty payload, failing with a type error) is
wrong: the loop body never runs, so the loop-local `missed_dep` name is
never bound and the raise statement itself fails with an unbound-local
error before any failure value is constructed. -/
theorem C10_counterexample :
    assertDependencies { flags := fun _ => "", dest := none, gameVersion := none }
        (some ⟨some "Or", []⟩)
      = .error .unboundLocalError ∧
    (Except.error PyError.unboundLocalError : Except PyError Unit) ≠ .error .typeError ∧
    (Except.error PyError.unboundLocalError : Except PyError Unit)
      ≠ .error (.missingDependency ⟨"Flag", "", ""⟩) := by
  refine ⟨by simp [assertDependencies, evalDeps], by decide, by decide⟩

/-- C10 (amended): for every fact assignment, evaluating an Or composite
with no children raises an exception that is not a MissingDependency:
the raise references the loop-local missed-dependency variable, which
was never assigned, so an unbound-local (name) error escapes before any
failure value is constructed. -/
theorem C10_amended_theorem :
    ∀ facts : Facts,
      assertDependencies facts (some ⟨some "Or", []⟩) = .error .unboundLocalError := by
  intro facts
  simp [assertDependencies, evalDeps]

/-- C9: confirmed.  `answer.pop('previous_step', False)` removes the key
and branches on the truthiness of its value: a falsy binding (such as
False) is *not* a backward request — submission behaves exactly as if the
key had never been present, processing the remaining entries as a normal
forward answer; a truthy binding triggers backward navigation, and every
other entry of the answer is ignored (submitting the bare marker gives
the same result). -/
theorem C9_theorem (conf : ModuleConf) (dest : Option (String → Bool)) (gv : Option String)
    (s : EngineState) (ans : Dict PyVal) (v : PyVal) :
    (dget ans "previous_step" = some v → truthy v = false →
      submitEngine conf dest gv s ans
        = submitEngine conf dest gv s (dremove ans "previous_step")) ∧
    (dget ans "previous_step" = some v → truthy v = true →
      submitEngine conf dest gv s ans
        = submitEngine conf dest gv s [("previous_step", v)]) := by
  constructor
  · intro h1 h2
    cases hph : s.phase with
    | awaitingAnswer sv idd =>
      have ht : truthy (.pyBool false) = false := rfl
      simp [submitEngine, hph, h1, h2, dget_dremove, dremove_idem, ht]
    | awaitingStep => simp [submitEngine, hph]
    | finished => simp [submitEngine, hph]
  · intro h1 h2
    cases hph : s.phase with
    | awaitingAnswer sv idd =>
      simp [submitEngine, hph, h1, h2, dget]
    | awaitingStep => simp [submitEngine, hph]
    | finished => simp [submitEngine, hph]

/-- C9 witness: a falsy `previous_step` entry alongside a real selection
is processed as if absent, and a truthy one wins over any other
entries. -/
theorem C9_witness :
    dget [("previous_step", PyVal.pyBool false), ("uuid-0", PyVal.pyList ["uuid-1"])]
        "previous_step" = some (PyVal.pyBool false) ∧
    truthy (PyVal.pyBool false) = false ∧
    submitEngine scConf none none sampleAwaitState
        [("previous_step", PyVal.pyBool false), ("uuid-0", PyVal.pyList ["uuid-1"])]
      = submitEngine scConf none none sampleAwaitState
          (dremove [("previous_step", PyVal.pyBool false), ("uuid-0", PyVal.pyList ["uuid-1"])]
            "previous_step") :=
  ⟨rfl, rfl,
    (C9_theorem scConf none none sampleAwaitState
      [("previous_step", PyVal.pyBool false), ("uuid-0", PyVal.pyList ["uuid-1"])]
      (PyVal.pyBool false)).1 rfl rfl⟩

/-- C8: confirmed.  Reading the flattened file view leaves the engine
state (in particular the layer sequence) unchanged, repeated reads with
no intervening mutation return identical maps, and the view is a
function of the layer sequence alone. -/
theorem C8_theorem :
    (∀ s : EngineState, (readCollectedFiles s).2 = s) ∧
    (∀ s : EngineState,
      (readCollectedFiles ((readCollectedFiles s).2)).1 = (readCollectedFiles s).1) ∧
    (∀ s t : EngineState, s.fileMaps = t.fileMaps →
      (readCollectedFiles s).1 = (readCollectedFiles t).1) :=
  ⟨fun _ => rfl, fun _ => rfl, fun s t h => by simp [readCollectedFiles, h]⟩

/-- C8 witness: two states sharing a layer sequence produce the same
flattened map. -/
theorem C8_witness :
    sampleStateA.fileMaps = sampleStateB.fileMaps ∧
    (readCollectedFiles sampleStateA).1 = (readCollectedFiles sampleStateB).1 :=
  ⟨rfl, C8_theorem.2.2 sampleStateA sampleStateB rfl⟩

end Boop
